import Mathlib

/-!
Shallow embedding of the production-planning simulation core of
`bc-production-planning` (files `src/modules/farm.py` and
`src/modules/utils.py`), together with theorems settling the frozen
claims about its specification.

Python integers are modelled as `Int`, Python's true division (used once,
in `Farm.choose_species`, only to compare quotients) as exact fractions
compared by a sign test proven equivalent to the `Rat` ordering
(`Share.gt_iff_rat`), dictionaries keyed by the
fixed stage strings as fixed-schema structures, and dictionaries keyed by
species / batch-id strings as association lists.  Fallible operations
(`KeyError`, `ZeroDivisionError`, `IndexError` paths that are reachable in
the Python code) are modelled with `Except String`.  The randomness used
by `random.randint` / `random.choice` is modelled by an explicit stream
`rng : Nat → Nat` together with a cursor `k : Nat` that advances by one on
every draw.
-/

/-- The four lifecycle stages of `farm.py` (`"BS"`, `"MF"`, `"FS"`, `"OP"`). -/
inductive Stage where
  | BS | MF | FS | OP
  deriving DecidableEq, Repr, Fintype

/-- Successor along the pipeline BS → MF → FS → OP (OP is a fixpoint). -/
def Stage.next : Stage → Stage
  | .BS => .MF
  | .MF => .FS
  | .FS => .OP
  | .OP => .OP

/-- Numeric rank of a stage, inducing the order BS < MF < FS < OP. -/
def Stage.rank : Stage → Nat
  | .BS => 0
  | .MF => 1
  | .FS => 2
  | .OP => 3

/-- Association-list lookup with a default: Python `d.get(k, dflt)`. -/
def lookupD (l : List (String × α)) (k : String) (dflt : α) : α :=
  match l with
  | [] => dflt
  | (k', v) :: rest => if k' = k then v else lookupD rest k dflt

/-- Association-list lookup, failing like Python `d[k]` (`KeyError`). -/
def lookupE (l : List (String × α)) (k : String) : Except String α :=
  match l with
  | [] => .error "KeyError"
  | (k', v) :: rest => if k' = k then .ok v else lookupE rest k

/-- In-place update of the first binding of `k`: Python `d[k] = f d[k]`
for the places where the key is always present (the per-species totals and
changes dictionaries, which are pre-initialized over the full species
set); a missing key is left untouched. -/
def updateD (l : List (String × α)) (k : String) (f : α → α) : List (String × α) :=
  match l with
  | [] => []
  | (k', v) :: rest =>
    if k' = k then (k', f v) :: rest else (k', v) :: updateD rest k f

/-- In-place update of the first binding of `k`, failing like Python
`d[k] -= q` on a missing key (`KeyError`); used where a missing key is
reachable (`species_shortfall` updates in `plan_future`). -/
def updateE (l : List (String × α)) (k : String) (f : α → α) : Except String (List (String × α)) :=
  match l with
  | [] => .error "KeyError"
  | (k', v) :: rest =>
    if k' = k then .ok ((k', f v) :: rest)
    else (updateE rest k f).map fun rest' => (k', v) :: rest'

/-- Python dict assignment `d[k] = v`: replace the first binding of `k`
in place if present, otherwise append the new binding. -/
def insertA (l : List (String × α)) (k : String) (v : α) : List (String × α) :=
  match l with
  | [] => [(k, v)]
  | (k', v') :: rest =>
    if k' = k then (k', v) :: rest else (k', v') :: insertA rest k v

/-- A stage-keyed dictionary of integers (the `stage_capacities` /
`stage_capacity_remaining` dictionaries with keys `"BS".."OP"`). -/
structure StageMap where
  BS : Int
  MF : Int
  FS : Int
  OP : Int
  deriving DecidableEq, Repr

/-- Read the entry of one stage. -/
def StageMap.get (m : StageMap) : Stage → Int
  | .BS => m.BS
  | .MF => m.MF
  | .FS => m.FS
  | .OP => m.OP

/-- `m[s] -= q`. -/
def StageMap.sub (m : StageMap) (s : Stage) (q : Int) : StageMap :=
  match s with
  | .BS => { m with BS := m.BS - q }
  | .MF => { m with MF := m.MF - q }
  | .FS => { m with FS := m.FS - q }
  | .OP => { m with OP := m.OP - q }

/-- The `totals_zero`-shaped dictionary of `Farm.forecast`
(`{"BS": 0, "MF": 0, "FS": 0, "OP": 0, "SF": 0}`). -/
structure Totals where
  BS : Int
  MF : Int
  FS : Int
  OP : Int
  SF : Int
  deriving DecidableEq, Repr

/-- All-zero totals. -/
def Totals.zero : Totals := ⟨0, 0, 0, 0, 0⟩

/-- Read the entry of one stage key. -/
def Totals.get (t : Totals) : Stage → Int
  | .BS => t.BS
  | .MF => t.MF
  | .FS => t.FS
  | .OP => t.OP

/-- `t[s] += q`. -/
def Totals.add (t : Totals) (s : Stage) (q : Int) : Totals :=
  match s with
  | .BS => { t with BS := t.BS + q }
  | .MF => { t with MF := t.MF + q }
  | .FS => { t with FS := t.FS + q }
  | .OP => { t with OP := t.OP + q }

/-- The `blank_totals`-shaped dictionary of `Farm.plan_future`
(`{"BS": 0, "MF": 0, "FS": 0, "OP": 0}`, no `"SF"` key). -/
structure Totals4 where
  BS : Int
  MF : Int
  FS : Int
  OP : Int
  deriving DecidableEq, Repr

/-- All-zero four-stage totals. -/
def Totals4.zero : Totals4 := ⟨0, 0, 0, 0⟩

/-- Read the entry of one stage key. -/
def Totals4.get (t : Totals4) : Stage → Int
  | .BS => t.BS
  | .MF => t.MF
  | .FS => t.FS
  | .OP => t.OP

/-- `t[s] += q`. -/
def Totals4.add (t : Totals4) (s : Stage) (q : Int) : Totals4 :=
  match s with
  | .BS => { t with BS := t.BS + q }
  | .MF => { t with MF := t.MF + q }
  | .FS => { t with FS := t.FS + q }
  | .OP => { t with OP := t.OP + q }

/-- A `Batch` (`farm.py` lines 6–50).  The per-stage mortality constants
(`*_mortality_std`) carried by the Python object are read by no simulation
logic (`simulate_mortality` is a no-op), so they are omitted from the
embedding. -/
structure Batch where
  batch_id : String
  species : String
  quantity : Int
  stage : Stage
  start_date : Int
  bs_cycle_days : Int
  mf_cycle_days : Int
  fs_cycle_days : Int
  end_date : Option Int
  deriving DecidableEq, Repr

/-- `Batch.__init__`: sets `end_date` from the initial stage
(`start_date + cycle` for BS/MF/FS, `None` for OP). -/
def Batch.init (batch_id species : String) (quantity : Int) (stage : Stage)
    (start_date bs_cycle_days mf_cycle_days fs_cycle_days : Int) : Batch :=
  { batch_id := batch_id, species := species, quantity := quantity, stage := stage
    start_date := start_date
    bs_cycle_days := bs_cycle_days, mf_cycle_days := mf_cycle_days
    fs_cycle_days := fs_cycle_days
    end_date :=
      match stage with
      | .BS => some (start_date + bs_cycle_days)
      | .MF => some (start_date + mf_cycle_days)
      | .FS => some (start_date + fs_cycle_days)
      | .OP => none }

/-- `Batch.is_ready_to_transition`: false when `end_date` is `None`,
otherwise `day >= end_date`. -/
def Batch.is_ready_to_transition (b : Batch) (day : Int) : Bool :=
  match b.end_date with
  | none => false
  | some e => day ≥ e

/-- `Batch.change_stage`: advance one stage, recompute `end_date`
(`None` on entering OP), and reset `start_date` to `day`.  A batch already
in OP keeps its stage and `end_date` (only `start_date` is reassigned). -/
def Batch.change_stage (b : Batch) (day : Int) : Batch :=
  let b' :=
    match b.stage with
    | .BS => { b with stage := .MF, end_date := some (day + b.mf_cycle_days) }
    | .MF => { b with stage := .FS, end_date := some (day + b.fs_cycle_days) }
    | .FS => { b with stage := .OP, end_date := none }
    | .OP => b
  { b' with start_date := day }

/-- `Batch.simulate_mortality`: an explicit no-op hook. -/
def Batch.simulate_mortality (b : Batch) : Batch := b

/-- An entry of a forecast `cur_inventory` snapshot (`farm.py` 135–139). -/
structure FInv where
  species : String
  stage : Stage
  quantity : Int
  deriving DecidableEq, Repr

/-- An entry of a plan `cur_inventory` snapshot (`farm.py` 270–273). -/
structure PInv where
  stage : Stage
  quantity : Int
  deriving DecidableEq, Repr

/-- One entry of a `rolling_capacity` series
(`{"prod": _, "broodstock": _, "stage": _}`). -/
structure CapRec where
  prod : Int
  broodstock : Int
  stage : StageMap
  deriving DecidableEq, Repr

/-- The `Farm` object (`farm.py` lines 53–63).  `prod_capacity` and
`bs_capacity` are stored pre-multiplied as in `__init__`. -/
structure Farm where
  inventory : List Batch
  prod_capacity : Int
  bs_capacity : Int
  stage_capacities : StageMap
  production_order : List (String × Int)
  no_outplant_window_start : Option Int
  no_outplant_window_end : Option Int
  deriving Repr

/-- `Farm.__init__` from tank counts and capacities. -/
def Farm.init (inventory : List Batch) (prod_tank_capacity prod_tank_num
    bs_tank_capacity bs_tank_num : Int) (stage_capacities : StageMap)
    (production_order : List (String × Int))
    (no_outplant_window_start no_outplant_window_end : Option Int) : Farm :=
  { inventory := inventory
    prod_capacity := prod_tank_capacity * prod_tank_num
    bs_capacity := bs_tank_capacity * bs_tank_num
    stage_capacities := stage_capacities
    production_order := production_order
    no_outplant_window_start := no_outplant_window_start
    no_outplant_window_end := no_outplant_window_end }

/-- `self.forecast_species_set`: the species appearing in the inventory
(a Python set, modelled as a duplicate-free list in first-occurrence
order). -/
def Farm.forecast_species_set (f : Farm) : List String :=
  (f.inventory.map Batch.species).dedup

/-- `self.complete_species_set`: the forecast species united with the
production-order keys. -/
def Farm.complete_species_set (f : Farm) : List String :=
  (f.forecast_species_set ++ f.production_order.map Prod.fst).dedup

/-- `Farm.check_stage_capacity` (`farm.py` 65–74): with a batch, check the
*downstream* stage's remaining pool against the batch's quantity; a batch
already in OP falls through to `return False`. -/
def Farm.check_stage_capacity (_f : Farm) (stage_capacities : StageMap)
    (batch : Option Batch) : Bool :=
  match batch with
  | none => stage_capacities.BS > 0
  | some b =>
    match b.stage with
    | .BS => stage_capacities.MF ≥ b.quantity
    | .MF => stage_capacities.FS ≥ b.quantity
    | .FS => stage_capacities.OP ≥ b.quantity
    | .OP => false

/-- `Farm.check_prod_capacity` (`farm.py` 76–86): only a BS batch is
constrained by the production pool. -/
def Farm.check_prod_capacity (_f : Farm) (prod_capacity_remaining : Int)
    (batch : Batch) : Bool :=
  if batch.stage = .BS then prod_capacity_remaining ≥ batch.quantity else true

/-- `Farm.create_batch` (`farm.py` 88–91): a fresh BS batch whose id uses
`random.randint(1, 10000)` (one rng draw) and whose quantity is
`min(quantity_ceiling, 100)`; default cycle lengths and mortality
constants apply.  Returns the batch and the advanced rng cursor. -/
def Farm.create_batch (_f : Farm) (rng : Nat → Nat) (k : Nat) (day : Int)
    (species : String) (quantity_ceiling : Int) : Batch × Nat :=
  let n := rng k % 10000 + 1
  (Batch.init ("TEST-" ++ toString n) species (min quantity_ceiling 100) .BS day
    28 30 90, k + 1)

/-- An exact fraction `num / den` (`den ≠ 0` at every use site): the value
of one `shortfall / production_order[species]` division in
`Farm.choose_species`.  Python evaluates the division on floats; the
embedding keeps the exact quotient and compares quotients with the exact
sign test `Share.gt`, which theorem `Share.gt_iff_rat` below proves
equivalent to the ordering of the corresponding rational numbers. -/
structure Share where
  num : Int
  den : Int
  deriving DecidableEq, Repr

/-- `a.num / a.den > b.num / b.den` as an exact sign test (valid whenever
both denominators are non-zero; see `Share.gt_iff_rat`). -/
def Share.gt (a b : Share) : Bool :=
  decide (0 < (a.num * b.den - b.num * a.den) * (a.den * b.den))

/-- The rational value of a share. -/
def Share.val (a : Share) : Rat := (a.num : Rat) / (a.den : Rat)

/-- The accumulation loop of `Farm.choose_species` (`farm.py` 96–100):
track the greatest `shortfall / production_order[species]` share seen so
far (strict improvement, initial maximum −1), failing on a missing
production-order key (`KeyError`) or a zero target
(`ZeroDivisionError`). -/
def chooseSpeciesGo (po : List (String × Int)) :
    List (String × Int) → Share → Option String → Except String (Option String)
  | [], _, best => .ok best
  | (s, v) :: rest, mx, best =>
    match lookupE po s with
    | .error e => .error e
    | .ok p =>
      if p = 0 then .error "ZeroDivisionError"
      else
        let shortfall_share : Share := ⟨v, p⟩
        if shortfall_share.gt mx then chooseSpeciesGo po rest shortfall_share (some s)
        else chooseSpeciesGo po rest mx best

/-- `Farm.choose_species` (`farm.py` 93–102).  `max_species or
random.choice(...)` falls through to the random branch when `max_species`
is falsy (`None`, or the empty string); the random choice consumes one rng
draw and indexes the complete species set (`IndexError` on an empty
set, as `random.choice([])` raises). -/
def Farm.choose_species (f : Farm) (species_shortfall : List (String × Int))
    (rng : Nat → Nat) (k : Nat) : Except String (String × Nat) :=
  match chooseSpeciesGo f.production_order species_shortfall ⟨-1, 1⟩ none with
  | .error e => .error e
  | .ok best =>
    let fallback : Except String (String × Nat) :=
      let l := f.complete_species_set
      if l.length = 0 then .error "IndexError"
      else .ok (l.getD (rng k % l.length) "", k + 1)
    match best with
    | some s => if s = "" then fallback else .ok (s, k)
    | none => fallback

/-- The accumulator threaded through the per-batch loop of a forecast day
(`farm.py` 121–141): the processed prefix of the inventory, the shared
`stage_capacity_remaining` pool, the day's changes and totals (overall and
per species), and the day's `cur_inventory` snapshot. -/
structure FcAcc where
  inv : List Batch
  caps : StageMap
  changes : Totals
  changesS : List (String × Totals)
  totals : Totals
  totalsS : List (String × Totals)
  snap : List (String × FInv)
  deriving Repr

/-- One iteration of the forecast per-batch loop (`farm.py` 121–141):
transition the batch when it is ready and the downstream pool has room,
decrementing the pool for the batch's *new* stage and recording the
change; then the mortality no-op, the snapshot entry, and the totals. -/
def Farm.fcStep (f : Farm) (day : Int) (acc : FcAcc) (batch : Batch) : FcAcc :=
  let is_ready := batch.is_ready_to_transition day
  let stage_capacity_exists := f.check_stage_capacity acc.caps (some batch)
  let (batch, caps, changes, changesS) :=
    if is_ready && stage_capacity_exists then
      let b := batch.change_stage day
      (b, acc.caps.sub b.stage b.quantity, acc.changes.add b.stage b.quantity,
        updateD acc.changesS b.species (fun t => t.add b.stage b.quantity))
    else
      (batch, acc.caps, acc.changes, acc.changesS)
  let batch := batch.simulate_mortality
  { inv := acc.inv ++ [batch]
    caps := caps
    changes := changes
    changesS := changesS
    totals := acc.totals.add batch.stage batch.quantity
    totalsS := updateD acc.totalsS batch.species (fun t => t.add batch.stage batch.quantity)
    snap := insertA acc.snap batch.batch_id
      { species := batch.species, stage := batch.stage, quantity := batch.quantity } }

/-- `{spec: totals_zero.copy() for spec in species}`. -/
def initSpecies (species : List String) (z : α) : List (String × α) :=
  species.map fun s => (s, z)

/-- One day's record of a forecast run: `cur_inventory`, the
`{"overall": _, "species": _}` totals and changes, and the capacity
entry. -/
structure FRec where
  snap : List (String × FInv)
  totals_overall : Totals
  totals_species : List (String × Totals)
  changes_overall : Totals
  changes_species : List (String × Totals)
  capacity : CapRec
  deriving DecidableEq, Repr

/-- One day of `Farm.forecast` (`farm.py` 112–162): reset the stage pool
to the configured ceilings, run the per-batch loop over the inventory,
then fill in the shortfall entries (`desired_output − OP` overall;
`production_order[s] − OP` for each forecast species present in the
production order) and the residual facility capacities.  Returns the
mutated inventory and the day's record. -/
def Farm.fcDay (f : Farm) (production_order : List (String × Int))
    (desired_output : Int) (day : Int) (inv : List Batch) : List Batch × FRec :=
  let z := initSpecies f.forecast_species_set Totals.zero
  let acc0 : FcAcc :=
    { inv := [], caps := f.stage_capacities, changes := Totals.zero, changesS := z
      totals := Totals.zero, totalsS := z, snap := [] }
  let acc := inv.foldl (f.fcStep day) acc0
  let cur_totals := { acc.totals with SF := desired_output - acc.totals.OP }
  let cur_totalsS := acc.totalsS.map fun (s, t) =>
    match lookupE production_order s with
    | .ok target => (s, { t with SF := target - t.OP })
    | .error _ => (s, t)
  let cur_avail_prod := f.prod_capacity - cur_totals.MF - cur_totals.FS
  let cur_avail_bs := f.bs_capacity - cur_totals.BS
  (acc.inv,
    { snap := acc.snap
      totals_overall := cur_totals, totals_species := cur_totalsS
      changes_overall := acc.changes, changes_species := acc.changesS
      capacity := { prod := cur_avail_prod, broodstock := cur_avail_bs, stage := acc.caps } })

/-- The day loop of `Farm.forecast`: run `n` further days starting at
`day`, threading the mutated inventory, and collect the day records in
order. -/
def Farm.fcRun (f : Farm) (production_order : List (String × Int))
    (desired_output : Int) : Nat → Nat → List Batch → List Batch × List FRec
  | _, 0, inv => (inv, [])
  | day, n + 1, inv =>
    let step := f.fcDay production_order desired_output (day : Int) inv
    let rest := f.fcRun production_order desired_output (day + 1) n step.1
    (rest.1, step.2 :: rest.2)

/-- `Farm.forecast(days, production_order, desired_output)`
(`farm.py` 104–173): the list of per-day records (the four parallel
rolling series, bundled per day). -/
def Farm.forecast (f : Farm) (days : Nat) (production_order : List (String × Int))
    (desired_output : Int) : List FRec :=
  (f.fcRun production_order desired_output 0 days f.inventory).2

/-- The inventory list after a forecast run (the state of the mutated
`self.inventory` when `forecast` returns). -/
def Farm.forecastFinalInv (f : Farm) (days : Nat)
    (production_order : List (String × Int)) (desired_output : Int) : List Batch :=
  (f.fcRun production_order desired_output 0 days f.inventory).1

/-- The state threaded through the admission loop of `Farm.plan_future`
(`farm.py` 220–245): the rng cursor, the hypothetical inventory, the
aggregate and per-species shortfalls, the shared BS stage pool, the
broodstock pool, and the day's changes so far. -/
structure AdmState where
  k : Nat
  inv : List Batch
  shortfall : Int
  species_shortfall : List (String × Int)
  caps : StageMap
  bs_cap : Int
  changes : Totals4
  changesS : List (String × Totals4)
  deriving DecidableEq, Repr

/-- The admission loop of `Farm.plan_future` (`farm.py` 220–245), run with
an explicit fuel.  While `shortfall > 0` and both the BS stage pool and
the broodstock pool are positive: size one batch to
`min(min(shortfall, BS pool, broodstock pool), 100)` (via `create_batch`),
choose its species, append it, and decrement the three pools, the chosen
species' shortfall (a reachable `KeyError` when the random fallback picks
a species outside `species_shortfall`) and record the BS change.  Each
iteration consumes at least one unit of shortfall, so fuel
`shortfall.toNat` makes the fuelled loop agree with the Python `while`
(theorem `admissionLoop_eq` below). -/
def Farm.admissionLoopF (f : Farm) (rng : Nat → Nat) (day : Int) :
    Nat → AdmState → Except String AdmState
  | 0, st => .ok st
  | fuel + 1, st =>
    if st.shortfall > 0 ∧ st.caps.BS > 0 ∧ st.bs_cap > 0 then
      let quantity_ceiling := min st.shortfall (min st.caps.BS st.bs_cap)
      match f.choose_species st.species_shortfall rng st.k with
      | .error e => .error e
      | .ok (new_species, k') =>
        let (new_batch, k'') := f.create_batch rng k' day new_species quantity_ceiling
        match updateE st.species_shortfall new_batch.species (fun v => v - new_batch.quantity) with
        | .error e => .error e
        | .ok sf' =>
          f.admissionLoopF rng day fuel
            { k := k''
              inv := st.inv ++ [new_batch]
              shortfall := st.shortfall - new_batch.quantity
              species_shortfall := sf'
              caps := st.caps.sub .BS new_batch.quantity
              bs_cap := st.bs_cap - new_batch.quantity
              changes := st.changes.add new_batch.stage new_batch.quantity
              changesS := updateD st.changesS new_batch.species
                (fun t => t.add new_batch.stage new_batch.quantity) }
    else .ok st

/-- The admission loop with enough fuel for the Python `while` loop. -/
def Farm.admissionLoop (f : Farm) (rng : Nat → Nat) (day : Int)
    (st : AdmState) : Except String AdmState :=
  f.admissionLoopF rng day st.shortfall.toNat st

/-- The accumulator of the advancement loop of `Farm.plan_future`
(`farm.py` 248–277). -/
structure AdvAcc where
  inv : List Batch
  caps : StageMap
  changes : Totals4
  changesS : List (String × Totals4)
  totals : Totals4
  totalsS : List (String × Totals4)
  snap : List (String × PInv)
  deriving Repr

/-- One iteration of the advancement loop of `Farm.plan_future`
(`farm.py` 248–277): the forecast transition rule plus the two extra
gates — a BS batch also needs the (pre-decrement) production pool to have
room, and an FS batch is blocked while inside the no-outplant window. -/
def Farm.advStep (f : Farm) (day : Int) (prod_capacity_remaining : Int)
    (in_outplant_window : Bool) (acc : AdvAcc) (batch : Batch) : AdvAcc :=
  let batch_is_ready := batch.is_ready_to_transition day
  let stage_capacity_exists := f.check_stage_capacity acc.caps (some batch)
  let no_stage_specific_restrictions :=
    match batch.stage with
    | .BS => f.check_prod_capacity prod_capacity_remaining batch
    | .FS => !in_outplant_window
    | _ => true
  let (batch, caps, changes, changesS) :=
    if batch_is_ready && stage_capacity_exists && no_stage_specific_restrictions then
      let b := batch.change_stage day
      (b, acc.caps.sub b.stage b.quantity, acc.changes.add b.stage b.quantity,
        updateD acc.changesS b.species (fun t => t.add b.stage b.quantity))
    else
      (batch, acc.caps, acc.changes, acc.changesS)
  let batch := batch.simulate_mortality
  { inv := acc.inv ++ [batch]
    caps := caps
    changes := changes
    changesS := changesS
    totals := acc.totals.add batch.stage batch.quantity
    totalsS := updateD acc.totalsS batch.species (fun t => t.add batch.stage batch.quantity)
    snap := insertA acc.snap batch.batch_id
      { stage := batch.stage, quantity := batch.quantity } }

/-- One day's record of a `plan_future` run. -/
structure PRec where
  snap : List (String × PInv)
  totals_overall : Totals4
  totals_species : List (String × Totals4)
  changes_overall : Totals4
  changes_species : List (String × Totals4)
  capacity : CapRec
  deriving DecidableEq, Repr

/-- The state carried from one `plan_future` day to the next: the rng
cursor, the hypothetical inventory, the two shortfall trackers, and the
previous day's overall totals (read by the capacity computation of every
later day). -/
structure PlanState where
  k : Nat
  inv : List Batch
  shortfall : Int
  species_shortfall : List (String × Int)
  prevTotals : Totals4
  deriving DecidableEq, Repr

/-- The `in_outplant_window` flag of one `plan_future` day (`farm.py`
186–189): true exactly when both window bounds are configured and
`no_outplant_window_start <= day <= no_outplant_window_end`. -/
def Farm.inWindow (f : Farm) (day : Nat) : Bool :=
  match f.no_outplant_window_start, f.no_outplant_window_end with
  | some ws, some we => decide (ws ≤ (day : Int) ∧ (day : Int) ≤ we)
  | _, _ => false

/-- The day's residual production pool (`farm.py` 192–201): straight from
the forecast capacity on day 0, otherwise the forecast envelope minus the
previous day's own MF+FS totals. -/
def planProdRem (c : CapRec) (day : Nat) (prev : Totals4) : Int :=
  if day = 0 then c.prod else c.prod - prev.MF - prev.FS

/-- The day's residual broodstock pool (`farm.py` 192–205): straight from
the forecast capacity on day 0, otherwise the forecast envelope minus the
previous day's own BS total. -/
def planBsRem (c : CapRec) (day : Nat) (prev : Totals4) : Int :=
  if day = 0 then c.broodstock else c.broodstock - prev.BS

/-- One day of `Farm.plan_future` (`farm.py` 183–289): compute the
no-outplant flag and the day's residual facility pools (an `IndexError`
when the forecast capacity series is shorter than the horizon), run the
admission loop and then the advancement loop over the whole hypothetical
inventory, and assemble the day's record. -/
def Farm.planDay (f : Farm) (rng : Nat → Nat)
    (forecasted_capacity : List CapRec) (day : Nat) (st : PlanState) :
    Except String (PlanState × PRec) :=
  match forecasted_capacity.get? day with
  | none => .error "IndexError"
  | some c =>
    let z := initSpecies f.complete_species_set Totals4.zero
    match f.admissionLoop rng (day : Int)
        { k := st.k, inv := st.inv, shortfall := st.shortfall
          species_shortfall := st.species_shortfall
          caps := c.stage, bs_cap := planBsRem c day st.prevTotals
          changes := Totals4.zero, changesS := z } with
    | .error e => .error e
    | .ok admSt' =>
      let acc := admSt'.inv.foldl
        (f.advStep (day : Int) (planProdRem c day st.prevTotals) (f.inWindow day))
        { inv := [], caps := admSt'.caps, changes := admSt'.changes
          changesS := admSt'.changesS, totals := Totals4.zero, totalsS := z
          snap := [] }
      .ok
        ({ k := admSt'.k, inv := acc.inv, shortfall := admSt'.shortfall
           species_shortfall := admSt'.species_shortfall, prevTotals := acc.totals },
         { snap := acc.snap
           totals_overall := acc.totals, totals_species := acc.totalsS
           changes_overall := acc.changes, changes_species := acc.changesS
           capacity := { prod := planProdRem c day st.prevTotals
                         broodstock := admSt'.bs_cap, stage := acc.caps } })

/-- The day loop of `Farm.plan_future`: run `n` further days starting at
`day`. -/
def Farm.planRun (f : Farm) (rng : Nat → Nat)
    (forecasted_capacity : List CapRec) :
    Nat → Nat → PlanState → Except String (PlanState × List PRec)
  | _, 0, st => .ok (st, [])
  | day, n + 1, st =>
    match f.planDay rng forecasted_capacity day st with
    | .error e => .error e
    | .ok (st', rec) =>
      match f.planRun rng forecasted_capacity (day + 1) n st' with
      | .error e => .error e
      | .ok (stF, recs) => .ok (stF, rec :: recs)

/-- `Farm.plan_future(days, species_shortfall, forecasted_capacity)`
(`farm.py` 175–296): starting from an empty hypothetical inventory and
`shortfall = sum(species_shortfall.values())`, the list of per-day
records (the four parallel rolling series, bundled per day). -/
def Farm.plan_future (f : Farm) (days : Nat)
    (species_shortfall : List (String × Int))
    (forecasted_capacity : List CapRec) (rng : Nat → Nat) (k : Nat) :
    Except String (List PRec) :=
  let st0 : PlanState :=
    { k := k, inv := [],
      shortfall := (species_shortfall.map Prod.snd).sum
      species_shortfall := species_shortfall, prevTotals := Totals4.zero }
  (f.planRun rng forecasted_capacity 0 days st0).map Prod.snd

/-- A day entry of a `totals`/`changes` rolling series as seen by
`create_unified_result` (`utils.py` 75–109): a generic string-keyed
`overall` dictionary and a per-species dictionary of such dictionaries. -/
structure UDay where
  overall : List (String × Int)
  species : List (String × List (String × Int))
  deriving DecidableEq, Repr

/-- `set(d1) | set(d2)`: the union of the key sets of two dictionaries
(modelled as a duplicate-free list in first-occurrence order). -/
def unionKeys (l1 l2 : List (String × α)) : List String :=
  (l1.map Prod.fst ++ l2.map Prod.fst).dedup

/-- The non-capacity branch of `merge_lists` for one day (`utils.py`
79–93): key-wise sums over the union of keys, with `.get(key, 0)` /
`.get(species, {})` defaults. -/
def merge_day (d1 d2 : UDay) : UDay :=
  { overall := (unionKeys d1.overall d2.overall).map fun key =>
      (key, lookupD d1.overall key 0 + lookupD d2.overall key 0)
    species := (unionKeys d1.species d2.species).map fun sp =>
      let m1 := lookupD d1.species sp []
      let m2 := lookupD d2.species sp []
      (sp, (unionKeys m1 m2).map fun key =>
        (key, lookupD m1 key 0 + lookupD m2 key 0)) }

/-- `merge_lists(list1, list2)` with `is_capacity=False` (the only way
`create_unified_result` calls it): the `zip` truncates to the shorter
series. -/
def merge_lists (l1 l2 : List UDay) : List UDay :=
  List.zipWith merge_day l1 l2

/-- `create_unified_result(forecast_result, hypothetical_result)`
(`utils.py` 105–109): totals and changes are merged key-wise; the unified
inventory and capacity series are taken directly from the hypothetical
(recovery) result.  The inventory and capacity series are generic in
their element types, as the function never inspects them. -/
def create_unified_result (forecast_result : ι × List UDay × List UDay × κ)
    (hypothetical_result : ι × List UDay × List UDay × κ) :
    ι × List UDay × List UDay × κ :=
  (hypothetical_result.1,
   merge_lists forecast_result.2.1 hypothetical_result.2.1,
   merge_lists forecast_result.2.2.1 hypothetical_result.2.2.1,
   hypothetical_result.2.2.2)

/-! ### Concrete fixtures used to evaluate the development on real inputs -/

/-- A placeholder forecast record (used only as a `getD` default). -/
def FRec.dummy : FRec :=
  { snap := [], totals_overall := Totals.zero, totals_species := []
    changes_overall := Totals.zero, changes_species := []
    capacity := { prod := 0, broodstock := 0, stage := ⟨0, 0, 0, 0⟩ } }

/-- A placeholder plan record (used only as a `getD` default). -/
def PRec.dummy : PRec :=
  { snap := [], totals_overall := Totals4.zero, totals_species := []
    changes_overall := Totals4.zero, changes_species := []
    capacity := { prod := 0, broodstock := 0, stage := ⟨0, 0, 0, 0⟩ } }

/-- A production order with one species (the freeport default's first
entry). -/
def testPO : List (String × Int) := [("PAST", 7000)]

/-- One BS batch of 100 started on day 0 with the default cycle lengths
and mortality constants. -/
def testBatch : Batch :=
  Batch.init "B0" "PAST" 100 .BS 0 28 30 90

/-- A farm holding `testBatch`, with the default freeport-style stage
ceilings. -/
def testFarm : Farm :=
  Farm.init [testBatch] 1000 27 100 10 ⟨1000, 300, 300, 1000⟩ testPO none none

/-- A forecast-capacity entry used to drive `plan_future` runs. -/
def testCap : CapRec :=
  { prod := 27000, broodstock := 300, stage := ⟨1000, 300, 300, 1000⟩ }

/-- An empty-inventory farm used to drive `plan_future` runs (species
`"A"`, target 7000). -/
def planFarm : Farm :=
  Farm.init [] 1000 27 100 10 ⟨1000, 300, 300, 1000⟩ [("A", 7000)] none none

/-- `planFarm` with the no-outplant window `[10, 20]`. -/
def windowFarm : Farm :=
  Farm.init [] 1000 27 100 10 ⟨1000, 300, 300, 1000⟩ [("A", 7000)]
    (some 10) (some 20)

/-- A placeholder plan state (used only as a `getD` default). -/
def PlanState.dummy : PlanState :=
  { k := 0, inv := [], shortfall := 0, species_shortfall := [], prevTotals := Totals4.zero }

/-- A plan state with one species shortfall of 50. -/
def c3St : PlanState :=
  { k := 0, inv := [], shortfall := 50, species_shortfall := [("A", 50)]
    prevTotals := Totals4.zero }

/-- An admission-loop state with shortfall 250, BS pool 1000, broodstock
pool 300 (the pools of spec scenario 3). -/
def c4St : AdmState :=
  { k := 0, inv := [], shortfall := 250, species_shortfall := [("A", 250)]
    caps := ⟨1000, 300, 300, 1000⟩, bs_cap := 300
    changes := Totals4.zero, changesS := [("A", Totals4.zero)] }

/-- An admission-loop state whose shortfall is exhausted. -/
def c4StDone : AdmState :=
  { k := 3, inv := [], shortfall := 0, species_shortfall := [("A", 0)]
    caps := ⟨750, 300, 300, 1000⟩, bs_cap := 50
    changes := Totals4.zero, changesS := [("A", Totals4.zero)] }

/-- The admission state `plan_future` builds on day 0 for a shortfall of
250 of species `"A"` against the capacity entry `testCap` (BS stage pool
1000, broodstock pool 300): spec scenario 3. -/
def c5St : AdmState :=
  { k := 0, inv := [], shortfall := 250, species_shortfall := [("A", 250)]
    caps := testCap.stage, bs_cap := planBsRem testCap 0 Totals4.zero
    changes := Totals4.zero
    changesS := initSpecies planFarm.complete_species_set Totals4.zero }

/-- A farm whose inventory species is `"B"` and whose production order
lists `"A"` (so the complete species set is `["B", "A"]`). -/
def c6Farm : Farm :=
  Farm.init [Batch.init "X" "B" 5 .OP 0 28 30 90] 1 1 1 1 ⟨0, 0, 0, 0⟩
    [("A", 1)] none none

/-- A farm whose production order gives species `"A"` a zero target. -/
def c7Farm : Farm :=
  Farm.init [] 1 1 1 1 ⟨0, 0, 0, 0⟩ [("A", 0)] none none

/-- One FS batch of 10 whose FS cycle ends on day 15. -/
def fsBatch : Batch := Batch.init "F1" "A" 10 .FS (-75) 28 30 90

/-- One OP (terminal) batch; its end date is `None`. -/
def opBatch : Batch := Batch.init "O1" "A" 5 .OP 0 28 30 90

/-- `planFarm` with the no-outplant window `[0, 5]`. -/
def w0Farm : Farm :=
  Farm.init [] 1000 27 100 10 ⟨1000, 300, 300, 1000⟩ [("A", 7000)]
    (some 0) (some 5)

/-- A plan state holding only `fsBatch` with no remaining shortfall. -/
def c8St : PlanState :=
  { k := 0, inv := [fsBatch], shortfall := 0, species_shortfall := [("A", 0)]
    prevTotals := ⟨0, 0, 10, 0⟩ }

/-- 22 days of forecast capacity. -/
def capsW : List CapRec := List.replicate 22 testCap

/-- A sample totals/changes day entry (forecast side). -/
def u1 : UDay := { overall := [("BS", 2), ("SF", 5)], species := [("A", [("BS", 2)])] }

/-- A sample totals/changes day entry (recovery side). -/
def u2 : UDay := { overall := [("BS", 3), ("OP", 1)], species := [("B", [("OP", 1)])] }

deriving instance DecidableEq for Except

/-! ### Basic lemmas about the embedded operations -/

theorem StageMap.get_sub (m : StageMap) (s t : Stage) (q : Int) :
    (m.sub s q).get t = m.get t - (if t = s then q else 0) := by
  cases s <;> cases t <;> simp [StageMap.sub, StageMap.get]

theorem Totals.get_zero (s : Stage) : Totals.zero.get s = 0 := by
  cases s <;> rfl

theorem Totals.get_add (t : Totals) (s u : Stage) (q : Int) :
    (t.add s q).get u = t.get u + (if u = s then q else 0) := by
  cases s <;> cases u <;> simp [Totals.add, Totals.get]

theorem Totals4.zero_get (s : Stage) : Totals4.zero.get s = 0 := by
  cases s <;> rfl

theorem Totals4.add_get (t : Totals4) (s u : Stage) (q : Int) :
    (t.add s q).get u = t.get u + (if u = s then q else 0) := by
  cases s <;> cases u <;> simp [Totals4.add, Totals4.get]

theorem Batch.change_stage_quantity (b : Batch) (day : Int) :
    (b.change_stage day).quantity = b.quantity := by
  cases h : b.stage <;> simp [Batch.change_stage, h]

theorem Batch.change_stage_stage (b : Batch) (day : Int) :
    (b.change_stage day).stage = b.stage.next := by
  cases h : b.stage <;> simp [Batch.change_stage, h, Stage.next]

theorem Batch.change_stage_species (b : Batch) (day : Int) :
    (b.change_stage day).species = b.species := by
  cases h : b.stage <;> simp [Batch.change_stage, h]

theorem Batch.change_stage_batch_id (b : Batch) (day : Int) :
    (b.change_stage day).batch_id = b.batch_id := by
  cases h : b.stage <;> simp [Batch.change_stage, h]

theorem Farm.check_stage_capacity_spec (f : Farm) (caps : StageMap) (b : Batch)
    (h : f.check_stage_capacity caps (some b) = true) :
    b.stage ≠ .OP ∧ b.quantity ≤ caps.get b.stage.next := by
  cases hs : b.stage <;>
    simp [Farm.check_stage_capacity, hs, StageMap.get, Stage.next] at h ⊢ <;>
    omega

theorem Farm.fcStep_guard_true (f : Farm) (day : Int) (acc : FcAcc) (b : Batch)
    (h1 : b.is_ready_to_transition day = true)
    (h2 : f.check_stage_capacity acc.caps (some b) = true) :
    f.fcStep day acc b =
      { inv := acc.inv ++ [b.change_stage day]
        caps := acc.caps.sub (b.change_stage day).stage (b.change_stage day).quantity
        changes := acc.changes.add (b.change_stage day).stage (b.change_stage day).quantity
        changesS := updateD acc.changesS (b.change_stage day).species
          (fun t => t.add (b.change_stage day).stage (b.change_stage day).quantity)
        totals := acc.totals.add (b.change_stage day).stage (b.change_stage day).quantity
        totalsS := updateD acc.totalsS (b.change_stage day).species
          (fun t => t.add (b.change_stage day).stage (b.change_stage day).quantity)
        snap := insertA acc.snap (b.change_stage day).batch_id
          { species := (b.change_stage day).species, stage := (b.change_stage day).stage
            quantity := (b.change_stage day).quantity } } := by
  simp [Farm.fcStep, h1, h2, Batch.simulate_mortality]

theorem Farm.fcStep_guard_false (f : Farm) (day : Int) (acc : FcAcc) (b : Batch)
    (h : ¬(b.is_ready_to_transition day = true ∧
           f.check_stage_capacity acc.caps (some b) = true)) :
    f.fcStep day acc b =
      { inv := acc.inv ++ [b]
        caps := acc.caps
        changes := acc.changes
        changesS := acc.changesS
        totals := acc.totals.add b.stage b.quantity
        totalsS := updateD acc.totalsS b.species (fun t => t.add b.stage b.quantity)
        snap := insertA acc.snap b.batch_id
          { species := b.species, stage := b.stage, quantity := b.quantity } } := by
  rcases Decidable.not_and_iff_or_not.mp h with h1 | h1 <;>
    simp [Farm.fcStep, Bool.eq_false_iff.mpr h1, Batch.simulate_mortality]

/-- Invariant of the forecast per-batch loop: for every stage, the
recorded changes plus the remaining pool equal the configured ceiling, and
the remaining pool never goes negative (each transition is guarded by
`check_stage_capacity`). -/
theorem Farm.fcFold_capacity (f : Farm) (day : Int) :
    ∀ (l : List Batch) (acc : FcAcc),
      (∀ s, acc.changes.get s + acc.caps.get s = f.stage_capacities.get s ∧
            0 ≤ acc.caps.get s) →
      ∀ s, (l.foldl (f.fcStep day) acc).changes.get s +
             (l.foldl (f.fcStep day) acc).caps.get s = f.stage_capacities.get s ∧
           0 ≤ (l.foldl (f.fcStep day) acc).caps.get s := by
  intro l
  induction l with
  | nil => intro acc h; simpa using h
  | cons b rest ih =>
    intro acc h
    rw [List.foldl_cons]
    apply ih
    by_cases hg : b.is_ready_to_transition day = true ∧
        f.check_stage_capacity acc.caps (some b) = true
    · rw [Farm.fcStep_guard_true f day acc b hg.1 hg.2]
      intro s
      obtain ⟨-, hq⟩ := f.check_stage_capacity_spec acc.caps b hg.2
      have hinv := h s
      simp only [Totals.get_add, StageMap.get_sub, Batch.change_stage_stage,
        Batch.change_stage_quantity]
      constructor
      · split <;> omega
      · by_cases hs : s = b.stage.next
        · simp only [if_pos hs]; subst hs; omega
        · simp only [if_neg hs]; omega
    · rw [Farm.fcStep_guard_false f day acc b hg]
      exact h

/-- The changes recorded by one forecast day are bounded by the
configured stage ceilings. -/
theorem Farm.fcDay_changes_bound (f : Farm) (po : List (String × Int))
    (dout day : Int) (inv : List Batch)
    (h0 : ∀ s, 0 ≤ f.stage_capacities.get s) (s : Stage) :
    ((f.fcDay po dout day inv).2).changes_overall.get s ≤ f.stage_capacities.get s := by
  have hfold := f.fcFold_capacity day inv
    { inv := [], caps := f.stage_capacities, changes := Totals.zero
      changesS := initSpecies f.forecast_species_set Totals.zero
      totals := Totals.zero, totalsS := initSpecies f.forecast_species_set Totals.zero
      snap := [] }
    (fun s => ⟨by simp [Totals.get_zero], h0 s⟩) s
  simp only [Farm.fcDay]
  omega

/-- Every record of a forecast day loop has stage-wise changes bounded by
the configured ceilings. -/
theorem Farm.fcRun_changes_bound (f : Farm) (po : List (String × Int)) (dout : Int)
    (h0 : ∀ s, 0 ≤ f.stage_capacities.get s) :
    ∀ (n day : Nat) (inv : List Batch),
      ∀ rec ∈ (f.fcRun po dout day n inv).2, ∀ s,
        rec.changes_overall.get s ≤ f.stage_capacities.get s := by
  intro n
  induction n with
  | zero => intro day inv rec hrec; simp [Farm.fcRun] at hrec
  | succ m ih =>
    intro day inv rec hrec s
    simp only [Farm.fcRun, List.mem_cons] at hrec
    rcases hrec with h | h
    · subst h; exact f.fcDay_changes_bound po dout (day : Int) inv h0 s
    · exact ih (day + 1) _ rec h s

/-- **C1** (capacity non-oversubscription): for every simulated day of a
`forecast` run and every stage, the recorded sum of quantities of batches
transitioning into that stage on that day (the day's `changes` entry for
the stage) is at most the stage's configured capacity ceiling, provided
the configured ceilings are non-negative; this holds because a batch
transitions only when `check_stage_capacity` finds the downstream stage's
remaining daily pool at least the batch's quantity, and the pool is
decremented by that quantity on each transition. -/
theorem claim_C1_capacity_non_oversubscription (f : Farm) (days : Nat)
    (po : List (String × Int)) (dout : Int)
    (h0 : ∀ s, 0 ≤ f.stage_capacities.get s) :
    ∀ rec ∈ f.forecast days po dout, ∀ s : Stage,
      rec.changes_overall.get s ≤ f.stage_capacities.get s :=
  fun rec hrec s => f.fcRun_changes_bound po dout h0 days 0 f.inventory rec hrec s

theorem claim_C1_capacity_non_oversubscription_witness :
    (∀ s, 0 ≤ testFarm.stage_capacities.get s) ∧
    ((testFarm.forecast 1 testPO 7000).getD 0 FRec.dummy).changes_overall.get .MF
      ≤ testFarm.stage_capacities.get .MF :=
  ⟨by decide,
   claim_C1_capacity_non_oversubscription testFarm 1 testPO 7000 (by decide)
     ((testFarm.forecast 1 testPO 7000).getD 0 FRec.dummy) (by decide) .MF⟩

/-! ### Per-batch evolution shape of the two passes -/

/-- How one batch evolves across one simulated day in either pass: it is
either untouched or advanced exactly one stage by `change_stage` (and only
a non-OP batch can advance, since `check_stage_capacity` returns false for
an OP batch). -/
def batchStepRel (day : Int) (b b' : Batch) : Prop :=
  b' = b ∨ (b.stage ≠ .OP ∧ b' = b.change_stage day)

theorem Farm.fcFold_shape (f : Farm) (day : Int) :
    ∀ (l : List Batch) (acc : FcAcc),
      ∃ l', (l.foldl (f.fcStep day) acc).inv = acc.inv ++ l' ∧
        List.Forall₂ (batchStepRel day) l l' := by
  intro l
  induction l with
  | nil => intro acc; exact ⟨[], by simp, .nil⟩
  | cons b rest ih =>
    intro acc
    rw [List.foldl_cons]
    obtain ⟨l', h1, h2⟩ := ih (f.fcStep day acc b)
    by_cases hg : b.is_ready_to_transition day = true ∧
        f.check_stage_capacity acc.caps (some b) = true
    · refine ⟨b.change_stage day :: l', ?_, .cons (Or.inr
        ⟨(f.check_stage_capacity_spec acc.caps b hg.2).1, rfl⟩) h2⟩
      rw [h1, Farm.fcStep_guard_true f day acc b hg.1 hg.2]
      simp
    · refine ⟨b :: l', ?_, .cons (Or.inl rfl) h2⟩
      rw [h1, Farm.fcStep_guard_false f day acc b hg]
      simp

/-- One forecast day maps the inventory pointwise by `batchStepRel`. -/
theorem Farm.fcDay_forall2 (f : Farm) (po : List (String × Int))
    (dout day : Int) (inv : List Batch) :
    List.Forall₂ (batchStepRel day) inv (f.fcDay po dout day inv).1 := by
  obtain ⟨l', h1, h2⟩ := f.fcFold_shape day inv
    { inv := [], caps := f.stage_capacities, changes := Totals.zero
      changesS := initSpecies f.forecast_species_set Totals.zero
      totals := Totals.zero, totalsS := initSpecies f.forecast_species_set Totals.zero
      snap := [] }
  simpa [Farm.fcDay, h1] using h2

theorem forall2_map_eq {r : α → α → Prop} {g : α → β}
    (hg : ∀ a b, r a b → g b = g a) :
    ∀ {l l' : List α}, List.Forall₂ r l l' → l'.map g = l.map g := by
  intro l l' h
  induction h with
  | nil => rfl
  | cons hr _ ih => simp [ih, hg _ _ hr]

theorem batchStepRel_quantity (day : Int) (b b' : Batch)
    (h : batchStepRel day b b') : b'.quantity = b.quantity := by
  rcases h with h | ⟨-, h⟩
  · rw [h]
  · rw [h, Batch.change_stage_quantity]

/-- The forecast day loop never changes any batch's quantity: the list of
quantities of the running inventory is pointwise invariant. -/
theorem Farm.fcRun_quantities (f : Farm) (po : List (String × Int)) (dout : Int) :
    ∀ (n day : Nat) (inv : List Batch),
      (f.fcRun po dout day n inv).1.map Batch.quantity = inv.map Batch.quantity := by
  intro n
  induction n with
  | zero => intro day inv; rfl
  | succ m ih =>
    intro day inv
    simp only [Farm.fcRun]
    rw [ih (day + 1) _, forall2_map_eq (batchStepRel_quantity (day : Int))
      (f.fcDay_forall2 po dout (day : Int) inv)]

/-- **C2** (quantity conservation): `change_stage` and the mortality
no-op never change a batch's quantity, `forecast` never creates or
deletes batches, and hence the sum (indeed the whole list) of quantities
of the running inventory after any number of simulated days equals its
value at simulation start — in particular for the inventory `forecast`
leaves behind after a full run. -/
theorem claim_C2_quantity_conservation :
    (∀ (b : Batch) (day : Int), (b.change_stage day).quantity = b.quantity) ∧
    (∀ b : Batch, b.simulate_mortality = b) ∧
    (∀ (f : Farm) (po : List (String × Int)) (dout : Int) (n day : Nat)
        (inv : List Batch),
      ((f.fcRun po dout day n inv).1.map Batch.quantity).sum
          = (inv.map Batch.quantity).sum ∧
      (f.fcRun po dout day n inv).1.length = inv.length) ∧
    (∀ (f : Farm) (days : Nat) (po : List (String × Int)) (dout : Int),
      ((f.forecastFinalInv days po dout).map Batch.quantity).sum
          = (f.inventory.map Batch.quantity).sum) := by
  refine ⟨Batch.change_stage_quantity, fun _ => rfl, fun f po dout n day inv => ⟨?_, ?_⟩,
    fun f days po dout => ?_⟩
  · rw [f.fcRun_quantities po dout n day inv]
  · have h := congrArg List.length (f.fcRun_quantities po dout n day inv)
    simpa using h
  · rw [Farm.forecastFinalInv, f.fcRun_quantities po dout days 0 f.inventory]

theorem Farm.advStep_guard_true (f : Farm) (day prodRem : Int) (w : Bool)
    (acc : AdvAcc) (b : Batch)
    (h1 : b.is_ready_to_transition day = true)
    (h2 : f.check_stage_capacity acc.caps (some b) = true)
    (h3 : (match b.stage with
           | .BS => f.check_prod_capacity prodRem b
           | .FS => !w
           | _ => true) = true) :
    f.advStep day prodRem w acc b =
      { inv := acc.inv ++ [b.change_stage day]
        caps := acc.caps.sub (b.change_stage day).stage (b.change_stage day).quantity
        changes := acc.changes.add (b.change_stage day).stage (b.change_stage day).quantity
        changesS := updateD acc.changesS (b.change_stage day).species
          (fun t => t.add (b.change_stage day).stage (b.change_stage day).quantity)
        totals := acc.totals.add (b.change_stage day).stage (b.change_stage day).quantity
        totalsS := updateD acc.totalsS (b.change_stage day).species
          (fun t => t.add (b.change_stage day).stage (b.change_stage day).quantity)
        snap := insertA acc.snap (b.change_stage day).batch_id
          { stage := (b.change_stage day).stage
            quantity := (b.change_stage day).quantity } } := by
  simp [Farm.advStep, h1, h2, h3, Batch.simulate_mortality]

theorem Farm.advStep_guard_false (f : Farm) (day prodRem : Int) (w : Bool)
    (acc : AdvAcc) (b : Batch)
    (h : ¬(b.is_ready_to_transition day = true ∧
           f.check_stage_capacity acc.caps (some b) = true ∧
           (match b.stage with
            | .BS => f.check_prod_capacity prodRem b
            | .FS => !w
            | _ => true) = true)) :
    f.advStep day prodRem w acc b =
      { inv := acc.inv ++ [b]
        caps := acc.caps
        changes := acc.changes
        changesS := acc.changesS
        totals := acc.totals.add b.stage b.quantity
        totalsS := updateD acc.totalsS b.species (fun t => t.add b.stage b.quantity)
        snap := insertA acc.snap b.batch_id
          { stage := b.stage, quantity := b.quantity } } := by
  have hb : (b.is_ready_to_transition day &&
      f.check_stage_capacity acc.caps (some b) &&
      (match b.stage with
       | .BS => f.check_prod_capacity prodRem b
       | .FS => !w
       | _ => true)) ≠ true := by
    simpa [Bool.and_eq_true, and_assoc] using h
  simp [Farm.advStep, Bool.eq_false_iff.mpr hb, Batch.simulate_mortality]

theorem Farm.advFold_shape (f : Farm) (day prodRem : Int) (w : Bool) :
    ∀ (l : List Batch) (acc : AdvAcc),
      ∃ l', (l.foldl (f.advStep day prodRem w) acc).inv = acc.inv ++ l' ∧
        List.Forall₂ (batchStepRel day) l l' := by
  intro l
  induction l with
  | nil => intro acc; exact ⟨[], by simp, .nil⟩
  | cons b rest ih =>
    intro acc
    rw [List.foldl_cons]
    obtain ⟨l', h1, h2⟩ := ih (f.advStep day prodRem w acc b)
    by_cases hg : b.is_ready_to_transition day = true ∧
        f.check_stage_capacity acc.caps (some b) = true ∧
        (match b.stage with
         | .BS => f.check_prod_capacity prodRem b
         | .FS => !w
         | _ => true) = true
    · refine ⟨b.change_stage day :: l', ?_, .cons (Or.inr
        ⟨(f.check_stage_capacity_spec acc.caps b hg.2.1).1, rfl⟩) h2⟩
      rw [h1, Farm.advStep_guard_true f day prodRem w acc b hg.1 hg.2.1 hg.2.2]
      simp
    · refine ⟨b :: l', ?_, .cons (Or.inl rfl) h2⟩
      rw [h1, Farm.advStep_guard_false f day prodRem w acc b hg]
      simp

/-- The admission loop only appends to the hypothetical inventory. -/
theorem Farm.admissionLoopF_inv_shape (f : Farm) (rng : Nat → Nat) (day : Int) :
    ∀ (fuel : Nat) (st st' : AdmState),
      f.admissionLoopF rng day fuel st = .ok st' →
      ∃ newB, st'.inv = st.inv ++ newB := by
  intro fuel
  induction fuel with
  | zero =>
    intro st st' h
    cases h
    exact ⟨[], by simp⟩
  | succ m ih =>
    intro st st' h
    rw [Farm.admissionLoopF] at h
    split at h
    · split at h
      · cases h
      · simp only [Farm.create_batch] at h
        split at h
        · cases h
        · obtain ⟨newB, hnew⟩ := ih _ _ h
          simp only [List.append_assoc] at hnew
          exact ⟨_, hnew⟩
    · cases h
      exact ⟨[], by simp⟩

theorem forall2_append_split {r : α → β → Prop} :
    ∀ {l₁ l₂ : List α} {m : List β}, List.Forall₂ r (l₁ ++ l₂) m →
      ∃ m₁ m₂, m = m₁ ++ m₂ ∧ List.Forall₂ r l₁ m₁ ∧ List.Forall₂ r l₂ m₂ := by
  intro l₁
  induction l₁ with
  | nil => intro l₂ m h; exact ⟨[], m, rfl, .nil, h⟩
  | cons a rest ih =>
    intro l₂ m h
    cases h with
    | cons hr htail =>
      obtain ⟨m₁, m₂, rfl, hm₁, hm₂⟩ := ih htail
      exact ⟨_ :: m₁, m₂, rfl, .cons hr hm₁, hm₂⟩

theorem forall2_trans_of {r : α → α → Prop}
    (ht : ∀ a b c, r a b → r b c → r a c) :
    ∀ {l₁ l₂ l₃ : List α}, List.Forall₂ r l₁ l₂ → List.Forall₂ r l₂ l₃ →
      List.Forall₂ r l₁ l₃ := by
  intro l₁ l₂ l₃ h12
  induction h12 generalizing l₃ with
  | nil => intro h; exact h
  | cons hr _ ih =>
    intro h
    cases h with
    | cons hr' h' => exact .cons (ht _ _ _ hr hr') (ih h')

theorem forall2_rfl {r : α → α → Prop} (hr : ∀ a, r a a) :
    ∀ l : List α, List.Forall₂ r l l := by
  intro l
  induction l with
  | nil => exact .nil
  | cons a rest ih => exact .cons (hr a) ih

/-- The across-days evolution relation of one batch: its stage only moves
forward along BS < MF < FS < OP, and a batch that is in OP is never
mutated again. -/
def batchEvolRel (b b' : Batch) : Prop :=
  b.stage.rank ≤ b'.stage.rank ∧ (b.stage = .OP → b' = b)

theorem Stage.rank_le_rank_next (s : Stage) : s.rank ≤ s.next.rank := by
  cases s <;> decide

theorem batchStepRel_stage (day : Int) (b b' : Batch) (h : batchStepRel day b b') :
    b'.stage = b.stage ∨ b'.stage = b.stage.next := by
  rcases h with h | ⟨-, h⟩
  · exact Or.inl (by rw [h])
  · exact Or.inr (by rw [h, Batch.change_stage_stage])

theorem batchStepRel_evol (day : Int) (b b' : Batch) (h : batchStepRel day b b') :
    batchEvolRel b b' := by
  rcases h with h | ⟨hop, h⟩
  · subst h; exact ⟨le_refl _, fun _ => rfl⟩
  · subst h
    refine ⟨by rw [Batch.change_stage_stage]; exact b.stage.rank_le_rank_next,
      fun hOP => absurd hOP hop⟩

theorem batchEvolRel_rfl (b : Batch) : batchEvolRel b b :=
  ⟨le_refl _, fun _ => rfl⟩

theorem batchEvolRel_trans (a b c : Batch)
    (h1 : batchEvolRel a b) (h2 : batchEvolRel b c) : batchEvolRel a c := by
  refine ⟨le_trans h1.1 h2.1, fun hOP => ?_⟩
  have hb := h1.2 hOP
  have : b.stage = .OP := by rw [hb, hOP]
  rw [h2.2 this, hb]

/-- Across a whole forecast day loop, every batch of the starting
inventory evolves monotonically in stage, and an OP batch is never
touched. -/
theorem Farm.fcRun_evol (f : Farm) (po : List (String × Int)) (dout : Int) :
    ∀ (n day : Nat) (inv : List Batch),
      List.Forall₂ batchEvolRel inv (f.fcRun po dout day n inv).1 := by
  intro n
  induction n with
  | zero => intro day inv; exact forall2_rfl batchEvolRel_rfl inv
  | succ m ih =>
    intro day inv
    simp only [Farm.fcRun]
    exact forall2_trans_of batchEvolRel_trans
      (List.Forall₂.imp (fun a b hab => batchStepRel_evol (day : Int) a b hab)
        (f.fcDay_forall2 po dout (day : Int) inv))
      (ih (day + 1) _)

/-- One `plan_future` day maps the starting hypothetical inventory
pointwise by `batchStepRel` (the admission loop appends new batches after
it, and the advancement loop steps every batch at most one stage). -/
theorem Farm.planDay_shape (f : Farm) (rng : Nat → Nat) (cap : List CapRec)
    (day : Nat) (st : PlanState) (st' : PlanState) (rec : PRec)
    (h : f.planDay rng cap day st = .ok (st', rec)) :
    ∃ l₁ l₂, st'.inv = l₁ ++ l₂ ∧
      List.Forall₂ (batchStepRel (day : Int)) st.inv l₁ := by
  rw [Farm.planDay] at h
  split at h
  · cases h
  · rename_i c hcap
    dsimp only at h
    split at h
    · cases h
    · rename_i admSt' hadm
      obtain ⟨newB, hnewB⟩ := f.admissionLoopF_inv_shape rng (day : Int) _ _ _ hadm
      obtain ⟨l', hl', hf2⟩ := f.advFold_shape (day : Int)
        (planProdRem c day st.prevTotals) (f.inWindow day) admSt'.inv
        { inv := [], caps := admSt'.caps, changes := admSt'.changes
          changesS := admSt'.changesS, totals := Totals4.zero
          totalsS := initSpecies f.complete_species_set Totals4.zero, snap := [] }
      rw [hnewB] at hf2
      obtain ⟨m₁, m₂, hm, hm₁, hm₂⟩ := forall2_append_split hf2
      have hst' : st'.inv = l' := by
        have := congrArg (fun p => (Prod.fst p).inv) (Except.ok.inj h)
        simpa [hl'] using this.symm
      refine ⟨m₁, m₂, ?_, ?_⟩
      · rw [hst', ← hm]
      · simpa using hm₁

/-- Across a whole `plan_future` day loop, every batch of the starting
hypothetical inventory (a prefix of the final inventory, since the
admission loop only appends) evolves monotonically in stage, and an OP
batch is never touched. -/
theorem Farm.planRun_evol (f : Farm) (rng : Nat → Nat) (cap : List CapRec) :
    ∀ (n day : Nat) (st stF : PlanState) (recs : List PRec),
      f.planRun rng cap day n st = .ok (stF, recs) →
      ∃ l₁ l₂, stF.inv = l₁ ++ l₂ ∧ List.Forall₂ batchEvolRel st.inv l₁ := by
  intro n
  induction n with
  | zero =>
    intro day st stF recs h
    rw [Farm.planRun] at h
    injection h with h
    injection h with h1 h2
    subst h1
    exact ⟨st.inv, [], by simp, forall2_rfl batchEvolRel_rfl _⟩
  | succ m ih =>
    intro day st stF recs h
    rw [Farm.planRun] at h
    split at h
    · cases h
    · rename_i st1 rec1 hday
      split at h
      · cases h
      · rename_i stF1 recs1 hrun
        injection h with h
        injection h with h1 h2
        subst h1
        obtain ⟨l₁, l₂, hinv, hstep⟩ := f.planDay_shape rng cap day st st1 rec1 hday
        obtain ⟨m₁, m₂, hinv', hevol⟩ := ih (day + 1) st1 stF1 recs1 hrun
        rw [hinv] at hevol
        obtain ⟨a, b, hab, ha, hb⟩ := forall2_append_split hevol
        refine ⟨a, b ++ m₂, ?_, ?_⟩
        · rw [hinv', hab, List.append_assoc]
        · exact forall2_trans_of batchEvolRel_trans
            (List.Forall₂.imp (fun x y hxy => batchStepRel_evol (day : Int) x y hxy) hstep)
            ha

/-- **C3** (stage monotonicity): in both simulation passes a batch's
stage sequence is non-decreasing along BS < MF < FS < OP and never skips
a stage (each day it either keeps its stage or moves to the successor
stage); OP is terminal: entering OP sets the end date to null, a batch
with a null end date is never ready to transition, and an OP batch is
never mutated again over any number of days. -/
theorem claim_C3_stage_monotonicity :
    (∀ (day : Int) (b b' : Batch), batchStepRel day b b' →
        (b'.stage = b.stage ∨ b'.stage = b.stage.next) ∧
        b.stage.rank ≤ b'.stage.rank ∧ (b.stage = .OP → b' = b)) ∧
    (∀ (f : Farm) (po : List (String × Int)) (dout day : Int) (inv : List Batch),
        List.Forall₂ (batchStepRel day) inv (f.fcDay po dout day inv).1) ∧
    (∀ (f : Farm) (po : List (String × Int)) (dout : Int) (n day : Nat)
        (inv : List Batch),
        List.Forall₂ batchEvolRel inv (f.fcRun po dout day n inv).1) ∧
    (∀ (f : Farm) (rng : Nat → Nat) (cap : List CapRec) (day : Nat)
        (st st' : PlanState) (rec : PRec),
        f.planDay rng cap day st = .ok (st', rec) →
        ∃ l₁ l₂, st'.inv = l₁ ++ l₂ ∧
          List.Forall₂ (batchStepRel (day : Int)) st.inv l₁) ∧
    (∀ (f : Farm) (rng : Nat → Nat) (cap : List CapRec) (n day : Nat)
        (st stF : PlanState) (recs : List PRec),
        f.planRun rng cap day n st = .ok (stF, recs) →
        ∃ l₁ l₂, stF.inv = l₁ ++ l₂ ∧ List.Forall₂ batchEvolRel st.inv l₁) ∧
    (∀ (b : Batch) (day : Int), b.stage = .FS →
        (b.change_stage day).stage = .OP ∧ (b.change_stage day).end_date = none) ∧
    (∀ (b : Batch) (day : Int), b.end_date = none →
        b.is_ready_to_transition day = false) := by
  refine ⟨?_, Farm.fcDay_forall2, Farm.fcRun_evol, Farm.planDay_shape,
    fun f rng cap n day => f.planRun_evol rng cap n day, ?_, ?_⟩
  · intro day b b' h
    exact ⟨batchStepRel_stage day b b' h, (batchStepRel_evol day b b' h).1,
      (batchStepRel_evol day b b' h).2⟩
  · intro b day hFS
    simp [Batch.change_stage, hFS]
  · intro b day hnone
    simp [Batch.is_ready_to_transition, hnone]

theorem eq_ok_of_toOption {ε α : Type} : ∀ {e : Except ε α} {v : α},
    e.toOption = some v → e = .ok v := by
  intro e v h
  cases e with
  | error a => simp [Except.toOption] at h
  | ok a => simpa [Except.toOption] using h

theorem claim_C3_stage_monotonicity_witness :
    ((testBatch.stage = testBatch.stage ∨ testBatch.stage = testBatch.stage.next) ∧
      testBatch.stage.rank ≤ testBatch.stage.rank ∧
      (testBatch.stage = .OP → testBatch = testBatch)) ∧
    (∃ l₁ l₂,
      ((planFarm.planDay (fun n => n) [testCap] 0 c3St).toOption.getD
          (PlanState.dummy, PRec.dummy)).1.inv = l₁ ++ l₂ ∧
      List.Forall₂ (batchStepRel ((0 : Nat) : Int)) c3St.inv l₁) ∧
    (∃ l₁ l₂,
      ((planFarm.planRun (fun n => n) [testCap] 0 1 c3St).toOption.getD
          (PlanState.dummy, [])).1.inv = l₁ ++ l₂ ∧
      List.Forall₂ batchEvolRel c3St.inv l₁) ∧
    ((fsBatch.change_stage 15).stage = .OP ∧
      (fsBatch.change_stage 15).end_date = none) ∧
    opBatch.is_ready_to_transition 3 = false :=
  ⟨claim_C3_stage_monotonicity.1 0 testBatch testBatch (Or.inl rfl),
   claim_C3_stage_monotonicity.2.2.2.1 planFarm (fun n => n) [testCap] 0 c3St
     ((planFarm.planDay (fun n => n) [testCap] 0 c3St).toOption.getD
        (PlanState.dummy, PRec.dummy)).1
     ((planFarm.planDay (fun n => n) [testCap] 0 c3St).toOption.getD
        (PlanState.dummy, PRec.dummy)).2 (eq_ok_of_toOption (by decide)),
   claim_C3_stage_monotonicity.2.2.2.2.1 planFarm (fun n => n) [testCap] 1 0 c3St
     ((planFarm.planRun (fun n => n) [testCap] 0 1 c3St).toOption.getD
        (PlanState.dummy, [])).1
     ((planFarm.planRun (fun n => n) [testCap] 0 1 c3St).toOption.getD
        (PlanState.dummy, [])).2 (eq_ok_of_toOption (by decide)),
   claim_C3_stage_monotonicity.2.2.2.2.2.1 fsBatch 15 rfl,
   claim_C3_stage_monotonicity.2.2.2.2.2.2 opBatch 3 rfl⟩

/-- Justification of the exact sign test used for Python's float
comparison of shares: for non-zero denominators, `Share.gt` decides
exactly the ordering of the corresponding rational numbers. -/
theorem Share.gt_iff_rat (a b : Share) (ha : a.den ≠ 0) (hb : b.den ≠ 0) :
    a.gt b = true ↔ b.val < a.val := by
  have ha' : (a.den : Rat) ≠ 0 := Int.cast_ne_zero.mpr ha
  have hb' : (b.den : Rat) ≠ 0 := Int.cast_ne_zero.mpr hb
  rw [Share.gt, decide_eq_true_eq, Share.val, Share.val]
  conv_rhs => rw [← sub_pos, div_sub_div _ _ ha' hb', div_pos_iff, ← mul_pos_iff]
  rw [show ((a.num : Rat) * (b.den : Rat) - (a.den : Rat) * (b.num : Rat)) *
        ((a.den : Rat) * (b.den : Rat))
      = (((a.num * b.den - b.num * a.den) * (a.den * b.den) : Int) : Rat) from by
    push_cast
    ring]
  exact Int.cast_pos.symm

/-! ### Association-list update lemmas -/

theorem updateE_keys {α : Type} (k : String) (g : α → α) :
    ∀ (l l' : List (String × α)), updateE l k g = .ok l' →
      l'.map Prod.fst = l.map Prod.fst := by
  intro l
  induction l with
  | nil => intro l' h; simp [updateE] at h
  | cons p rest ih =>
    intro l' h
    rw [updateE] at h
    split at h
    · cases h; simp
    · cases hrec : updateE rest k g with
      | error e => rw [hrec] at h; cases h
      | ok rest' =>
        rw [hrec] at h
        cases h
        simp [ih rest' hrec]

theorem updateE_isOk {α : Type} (k : String) (g : α → α) :
    ∀ (l : List (String × α)), k ∈ l.map Prod.fst →
      ∃ l', updateE l k g = .ok l' := by
  intro l
  induction l with
  | nil => intro h; simp at h
  | cons p rest ih =>
    intro h
    rw [updateE]
    by_cases hk : p.1 = k
    · exact ⟨_, by rw [if_pos hk]⟩
    · have : k ∈ rest.map Prod.fst := by
        simp at h
        rcases h with h | h
        · exact absurd h.symm hk
        · simpa using h
      obtain ⟨l', hl'⟩ := ih this
      exact ⟨_, by rw [if_neg hk, hl']; rfl⟩

theorem updateE_lookupD {α : Type} (k : String) (g : α → α) (d : α) :
    ∀ (l l' : List (String × α)), updateE l k g = .ok l' →
      lookupD l' k d = g (lookupD l k d) := by
  intro l
  induction l with
  | nil => intro l' h; simp [updateE] at h
  | cons p rest ih =>
    intro l' h
    rw [updateE] at h
    split at h
    · rename_i hk
      cases h
      simp [lookupD, hk]
    · rename_i hk
      cases hrec : updateE rest k g with
      | error e => rw [hrec] at h; cases h
      | ok rest' =>
        rw [hrec] at h
        cases h
        simp [lookupD, hk, ih rest' hrec]

theorem updateE_sum (k : String) (q : Int) :
    ∀ (l l' : List (String × Int)), updateE l k (fun v => v - q) = .ok l' →
      (l'.map Prod.snd).sum = (l.map Prod.snd).sum - q := by
  intro l
  induction l with
  | nil => intro l' h; simp [updateE] at h
  | cons p rest ih =>
    intro l' h
    rw [updateE] at h
    split at h
    · cases h
      simp
      ring
    · cases hrec : updateE rest k (fun v => v - q) with
      | error e => rw [hrec] at h; cases h
      | ok rest' =>
        rw [hrec] at h
        cases h
        simp [ih rest' hrec]
        ring

theorem updateD_lookupD {α : Type} (k : String) (g : α → α) (d : α) :
    ∀ (l : List (String × α)), k ∈ l.map Prod.fst →
      lookupD (updateD l k g) k d = g (lookupD l k d) := by
  intro l
  induction l with
  | nil => intro h; simp at h
  | cons p rest ih =>
    intro h
    rw [updateD]
    by_cases hk : p.1 = k
    · simp [lookupD, hk]
    · have hmem : k ∈ rest.map Prod.fst := by
        simp at h
        rcases h with h | h
        · exact absurd h.symm hk
        · simpa using h
      simp [lookupD, hk, ih hmem]

/-- Fuel irrelevance of the admission loop: any fuel of at least
`shortfall.toNat` computes the same result, because each iteration of the
Python `while` loop strictly decreases the (non-negative) shortfall by at
least one, so `shortfall.toNat` iterations always suffice. -/
theorem Farm.admissionLoopF_congr (f : Farm) (rng : Nat → Nat) (day : Int) :
    ∀ (fuel₁ fuel₂ : Nat) (st : AdmState),
      st.shortfall.toNat ≤ fuel₁ → st.shortfall.toNat ≤ fuel₂ →
      f.admissionLoopF rng day fuel₁ st = f.admissionLoopF rng day fuel₂ st := by
  intro fuel₁
  induction fuel₁ with
  | zero =>
    intro fuel₂ st h1 h2
    have hsf : ¬(st.shortfall > 0 ∧ st.caps.BS > 0 ∧ st.bs_cap > 0) := by omega
    cases fuel₂ with
    | zero => rfl
    | succ m₂ => rw [Farm.admissionLoopF, Farm.admissionLoopF, if_neg hsf]
  | succ m ih =>
    intro fuel₂ st h1 h2
    by_cases hc : st.shortfall > 0 ∧ st.caps.BS > 0 ∧ st.bs_cap > 0
    · cases fuel₂ with
      | zero => omega
      | succ m₂ =>
        rw [Farm.admissionLoopF, Farm.admissionLoopF, if_pos hc, if_pos hc]
        cases hch : f.choose_species st.species_shortfall rng st.k with
        | error e => rfl
        | ok pair =>
          obtain ⟨s, k'⟩ := pair
          simp only [Farm.create_batch, Batch.init]
          cases hupd : updateE st.species_shortfall s
              (fun v => v - (min st.shortfall (min st.caps.BS st.bs_cap) ⊓ 100)) with
          | error e => rfl
          | ok sf' =>
            apply ih
            all_goals
              simp only [AdmState.mk.injEq]
              omega
    · cases fuel₂ with
      | zero =>
        conv_lhs => rw [Farm.admissionLoopF]
        rw [if_neg hc]
        rfl
      | succ m₂ => rw [Farm.admissionLoopF, Farm.admissionLoopF, if_neg hc, if_neg hc]

/-- **C4** (admission-loop step contract): the loop runs only while the
aggregate shortfall, the BS stage pool and the broodstock pool are all
positive (otherwise it returns the state unchanged); each iteration
creates exactly one new BS-stage batch of quantity
`min(shortfall, BS pool, broodstock pool, 100)`, appends it to the
hypothetical inventory, decrements the BS stage pool, the broodstock
pool, the aggregate shortfall and the chosen species' shortfall by that
quantity, and adds the quantity to the day's BS changes (overall and for
the chosen species), then continues. -/
theorem claim_C4_admission_loop_step (f : Farm) (rng : Nat → Nat) (day : Int)
    (st : AdmState) (s : String) (k' : Nat) (sf' : List (String × Int)) :
    (¬(st.shortfall > 0 ∧ st.caps.BS > 0 ∧ st.bs_cap > 0) →
      f.admissionLoop rng day st = .ok st) ∧
    (st.shortfall > 0 → st.caps.BS > 0 → st.bs_cap > 0 →
      f.choose_species st.species_shortfall rng st.k = .ok (s, k') →
      updateE st.species_shortfall s
        (fun v => v - min (min st.shortfall (min st.caps.BS st.bs_cap)) 100) = .ok sf' →
      s ∈ st.changesS.map Prod.fst →
      ∃ nb, nb = (f.create_batch rng k' day s
          (min st.shortfall (min st.caps.BS st.bs_cap))).1 ∧
        nb.stage = .BS ∧
        nb.quantity = min st.shortfall (min st.caps.BS (min st.bs_cap 100)) ∧
        f.admissionLoop rng day st =
          f.admissionLoop rng day
            { k := k' + 1
              inv := st.inv ++ [nb]
              shortfall := st.shortfall - nb.quantity
              species_shortfall := sf'
              caps := st.caps.sub .BS nb.quantity
              bs_cap := st.bs_cap - nb.quantity
              changes := st.changes.add .BS nb.quantity
              changesS := updateD st.changesS s (fun t => t.add .BS nb.quantity) } ∧
        lookupD sf' s 0 = lookupD st.species_shortfall s 0 - nb.quantity ∧
        (st.changes.add .BS nb.quantity).BS = st.changes.BS + nb.quantity ∧
        lookupD (updateD st.changesS s (fun t => t.add .BS nb.quantity)) s Totals4.zero
          = (lookupD st.changesS s Totals4.zero).add .BS nb.quantity) := by
  constructor
  · intro hc
    rw [Farm.admissionLoop]
    cases hfuel : st.shortfall.toNat with
    | zero => rfl
    | succ m =>
      rw [Farm.admissionLoopF, if_neg hc]
  · intro h1 h2 h3 hch hupd hmem
    refine ⟨_, rfl, rfl, by simp [Farm.create_batch, Batch.init]; omega, ?_, ?_, ?_, ?_⟩
    · -- the loop equation
      have hm : st.shortfall.toNat = (st.shortfall.toNat - 1) + 1 := by omega
      rw [Farm.admissionLoop, Farm.admissionLoop, hm]
      conv_lhs => rw [Farm.admissionLoopF]
      rw [if_pos ⟨h1, h2, h3⟩]
      simp only [hch, Farm.create_batch, Batch.init]
      rw [hupd]
      apply f.admissionLoopF_congr rng day
      · simp only [Batch.init]
        omega
      · simp only [Farm.create_batch, Batch.init]
        omega
    · rw [updateE_lookupD s _ 0 st.species_shortfall sf' hupd]
      simp [Farm.create_batch, Batch.init]
    · simp [Totals4.add]
    · rw [updateD_lookupD s _ Totals4.zero st.changesS hmem]

theorem claim_C4_admission_loop_step_witness :
    (planFarm.admissionLoop (fun n => n) 0 c4StDone = .ok c4StDone) ∧
    (∃ nb, nb = (planFarm.create_batch (fun n => n) 0 0 "A"
        (min c4St.shortfall (min c4St.caps.BS c4St.bs_cap))).1 ∧
      nb.stage = .BS ∧
      nb.quantity = min c4St.shortfall (min c4St.caps.BS (min c4St.bs_cap 100)) ∧
      planFarm.admissionLoop (fun n => n) 0 c4St =
        planFarm.admissionLoop (fun n => n) 0
          { k := 0 + 1
            inv := c4St.inv ++ [nb]
            shortfall := c4St.shortfall - nb.quantity
            species_shortfall := [("A", 150)]
            caps := c4St.caps.sub .BS nb.quantity
            bs_cap := c4St.bs_cap - nb.quantity
            changes := c4St.changes.add .BS nb.quantity
            changesS := updateD c4St.changesS "A" (fun t => t.add .BS nb.quantity) } ∧
      lookupD [("A", 150)] "A" 0 = lookupD c4St.species_shortfall "A" 0 - nb.quantity ∧
      (c4St.changes.add .BS nb.quantity).BS = c4St.changes.BS + nb.quantity ∧
      lookupD (updateD c4St.changesS "A" (fun t => t.add .BS nb.quantity)) "A" Totals4.zero
        = (lookupD c4St.changesS "A" Totals4.zero).add .BS nb.quantity) :=
  ⟨(claim_C4_admission_loop_step planFarm (fun n => n) 0 c4StDone "A" 0 []).1 (by decide),
   (claim_C4_admission_loop_step planFarm (fun n => n) 0 c4St "A" 0 [("A", 150)]).2
     (by decide) (by decide) (by decide) (by decide) (by decide) (by decide)⟩

/-- **C5-counterexample**: with an aggregate shortfall of 250 for one
species, a BS stage pool of 1000 and a broodstock pool of 300 on day 0,
the admission loop does *not* create 3 batches of 100 each and does *not*
leave the shortfall at −50: the batch quantities are 100, 100, 50 (the
third batch is capped by `min(remaining shortfall, …, 100)` = 50) and the
loop halts with shortfall exactly 0 (broodstock pool 50 remaining, not
exhausted). -/
theorem claim_C5_scenario3_counterexample :
    ((planFarm.admissionLoop (fun n => n) 0 c5St).map
        (fun st => (st.inv.map Batch.quantity, st.shortfall, st.bs_cap))
      = .ok ([100, 100, 50], 0, 50)) ∧
    [(100 : Int), 100, 50] ≠ [100, 100, 100] ∧ (0 : Int) ≠ -50 ∧
    ((planFarm.plan_future 1 [("A", 250)] [testCap] (fun n => n) 0).map
        (fun recs => recs.map (fun r => r.snap.map (fun p => p.2.quantity)))
      = .ok [[100, 100, 50]]) := by
  refine ⟨by decide, by decide, by decide, by decide⟩

/-- **C5** (scenario 3, amended): with an aggregate shortfall of 250 for
one species, a BS stage pool of 1000 and a broodstock pool of 300, on day
0 `plan_future`'s admission loop creates exactly 3 BS batches of
quantities 100, 100 and 50 — the third is capped at the remaining
shortfall, since each batch is sized to
`min(shortfall, BS pool, broodstock pool, 100)` — and halts with the
aggregate shortfall at 0 and 50 broodstock pool remaining; the day's BS
changes total 250. -/
theorem claim_C5_scenario3 :
    ((planFarm.admissionLoop (fun n => n) 0 c5St).map
        (fun st => (st.inv.map (fun b => (b.stage, b.quantity)),
          st.shortfall, st.bs_cap, st.caps.BS))
      = .ok ([(Stage.BS, 100), (Stage.BS, 100), (Stage.BS, 50)], 0, 50, 750)) ∧
    ((planFarm.plan_future 1 [("A", 250)] [testCap] (fun n => n) 0).map
        (fun recs => recs.map (fun r =>
          (r.snap.map Prod.snd, r.changes_overall.BS, r.capacity.broodstock)))
      = .ok [([⟨.BS, 100⟩, ⟨.BS, 100⟩, ⟨.BS, 50⟩], 250, 50)]) := by
  refine ⟨by decide, by decide⟩

theorem Share.gt_irrefl (a : Share) : a.gt a = false := by
  simp [Share.gt]

theorem Share.lt_val_of_gt (a b : Share) (ha : a.den ≠ 0) (hb : b.den ≠ 0)
    (h : a.gt b = true) : b.val < a.val :=
  (Share.gt_iff_rat a b ha hb).mp h

theorem Share.val_le_of_gt_eq_false (a b : Share) (ha : a.den ≠ 0) (hb : b.den ≠ 0)
    (h : a.gt b = false) : a.val ≤ b.val := by
  by_contra hlt
  exact absurd ((Share.gt_iff_rat a b ha hb).mpr (not_le.mp hlt)) (by simp [h])

/-- Full characterization of the `choose_species` accumulation loop when
every listed species has a non-zero production target: it succeeds, and
either no share strictly improves on the running maximum and the initial
candidate is kept, or it returns a species attaining the maximum share of
the list, strictly above the initial maximum. -/
theorem chooseSpeciesGo_spec (po : List (String × Int)) :
    ∀ (l : List (String × Int)) (mx : Share) (best : Option String),
      mx.den ≠ 0 →
      (∀ pr ∈ l, ∃ p, lookupE po pr.1 = .ok p ∧ p ≠ 0) →
      ∃ best', chooseSpeciesGo po l mx best = .ok best' ∧
        ((best' = best ∧
          ∀ pr ∈ l, ∀ p, lookupE po pr.1 = .ok p →
            Share.val ⟨pr.2, p⟩ ≤ mx.val) ∨
         (∃ pr, pr ∈ l ∧ ∃ p, lookupE po pr.1 = .ok p ∧ best' = some pr.1 ∧
           mx.val < Share.val ⟨pr.2, p⟩ ∧
           ∀ qr ∈ l, ∀ q, lookupE po qr.1 = .ok q →
             Share.val ⟨qr.2, q⟩ ≤ Share.val ⟨pr.2, p⟩)) := by
  intro l
  induction l with
  | nil =>
    intro mx best hmx hkeys
    exact ⟨best, rfl, Or.inl ⟨rfl, by simp⟩⟩
  | cons hd rest ih =>
    intro mx best hmx hkeys
    obtain ⟨p, hp, hp0⟩ := hkeys hd (List.mem_cons_self hd rest)
    have hkeys' : ∀ pr ∈ rest, ∃ p, lookupE po pr.1 = .ok p ∧ p ≠ 0 :=
      fun pr hpr => hkeys pr (List.mem_cons_of_mem hd hpr)
    obtain ⟨s, v⟩ := hd
    rw [chooseSpeciesGo, hp]
    dsimp only
    rw [if_neg hp0]
    by_cases hgt : Share.gt ⟨v, p⟩ mx = true
    · rw [if_pos hgt]
      obtain ⟨best', heq, hcase⟩ := ih ⟨v, p⟩ (some s) hp0 hkeys'
      refine ⟨best', heq, Or.inr ?_⟩
      rcases hcase with ⟨rfl, hall⟩ | ⟨pr, hmem, p', hp', hbest, hlt, hall⟩
      · refine ⟨(s, v), List.mem_cons_self _ _, p, hp, rfl,
          Share.lt_val_of_gt _ _ hp0 hmx hgt, ?_⟩
        intro qr hqr q hq
        rcases List.mem_cons.mp hqr with rfl | hqr
        · have : q = p := (Except.ok.inj ((hp.symm.trans hq))).symm
          subst this
          exact le_refl _
        · exact hall qr hqr q hq
      · obtain ⟨p'', hp'', hp''0⟩ := hkeys' pr hmem
        have hpp : p' = p'' := Except.ok.inj (hp'.symm.trans hp'')
        subst hpp
        refine ⟨pr, List.mem_cons_of_mem _ hmem, p', hp', hbest,
          lt_trans (Share.lt_val_of_gt _ _ hp0 hmx hgt) hlt, ?_⟩
        intro qr hqr q hq
        rcases List.mem_cons.mp hqr with rfl | hqr
        · have : q = p := (Except.ok.inj ((hp.symm.trans hq))).symm
          subst this
          exact le_of_lt hlt
        · exact hall qr hqr q hq
    · have hgt' : Share.gt ⟨v, p⟩ mx = false := Bool.eq_false_iff.mpr hgt
      rw [if_neg hgt]
      obtain ⟨best', heq, hcase⟩ := ih mx best hmx hkeys'
      refine ⟨best', heq, ?_⟩
      rcases hcase with ⟨rfl, hall⟩ | ⟨pr, hmem, p', hp', hbest, hlt, hall⟩
      · refine Or.inl ⟨rfl, ?_⟩
        intro qr hqr q hq
        rcases List.mem_cons.mp hqr with rfl | hqr
        · have : q = p := (Except.ok.inj ((hp.symm.trans hq))).symm
          subst this
          exact Share.val_le_of_gt_eq_false _ _ hp0 hmx hgt'
        · exact hall qr hqr q hq
      · refine Or.inr ⟨pr, List.mem_cons_of_mem _ hmem, p', hp', hbest, hlt, ?_⟩
        intro qr hqr q hq
        rcases List.mem_cons.mp hqr with rfl | hqr
        · have : q = p := (Except.ok.inj ((hp.symm.trans hq))).symm
          subst this
          exact le_trans (Share.val_le_of_gt_eq_false _ _ hp0 hmx hgt')
            (le_of_lt hlt)
        · exact hall qr hqr q hq

/-- **C6** (species selection, amended): provided every species carrying
shortfall has a non-empty name and a non-zero production target,
`choose_species` returns — deterministically, consuming no randomness — a
species attaining the *greatest* shortfall share whenever some species'
share strictly exceeds −1 (the loop's initial maximum), even if no share
is positive; the uniform random fallback over the complete species set
(consuming one rng draw) occurs exactly in the complementary case, i.e.
when every share is ≤ −1 — in particular when `species_shortfall` is
empty — not when no share is positive. -/
theorem claim_C6_species_selection_policy (f : Farm) (sf : List (String × Int))
    (h : ∀ pr ∈ sf, pr.1 ≠ "" ∧ ∃ p, lookupE f.production_order pr.1 = .ok p ∧ p ≠ 0) :
    ((∃ pr ∈ sf, ∃ p, lookupE f.production_order pr.1 = .ok p ∧
        Share.gt ⟨pr.2, p⟩ ⟨-1, 1⟩ = true) →
      ∃ w ∈ sf, ∃ pw, lookupE f.production_order w.1 = .ok pw ∧
        (-1 : Rat) < Share.val ⟨w.2, pw⟩ ∧
        (∀ qr ∈ sf, ∀ q, lookupE f.production_order qr.1 = .ok q →
          Share.val ⟨qr.2, q⟩ ≤ Share.val ⟨w.2, pw⟩) ∧
        ∀ (rng : Nat → Nat) (k : Nat), f.choose_species sf rng k = .ok (w.1, k)) ∧
    ((∀ pr ∈ sf, ∀ p, lookupE f.production_order pr.1 = .ok p →
        Share.gt ⟨pr.2, p⟩ ⟨-1, 1⟩ = false) →
      f.complete_species_set.length ≠ 0 →
      ∀ (rng : Nat → Nat) (k : Nat),
        f.choose_species sf rng k =
          .ok (f.complete_species_set.getD (rng k % f.complete_species_set.length) "",
            k + 1)) := by
  have hkeys : ∀ pr ∈ sf, ∃ p, lookupE f.production_order pr.1 = .ok p ∧ p ≠ 0 :=
    fun pr hpr => (h pr hpr).2
  have hm1 : Share.val ⟨-1, 1⟩ = (-1 : Rat) := by
    simp [Share.val]
  obtain ⟨best', heq, hcase⟩ :=
    chooseSpeciesGo_spec f.production_order sf ⟨-1, 1⟩ none (by decide) hkeys
  constructor
  · intro ⟨pr, hpr, p, hp, hgt⟩
    obtain ⟨p', hp', hp'0⟩ := hkeys pr hpr
    have hpp' : p = p' := Except.ok.inj (hp.symm.trans hp')
    subst hpp'
    have hgtv : (-1 : Rat) < Share.val ⟨pr.2, p⟩ := by
      rw [← hm1]
      exact Share.lt_val_of_gt _ _ hp'0 (by decide) hgt
    rcases hcase with ⟨-, hall⟩ | ⟨w, hw, pw, hpw, hbest, hlt, hall⟩
    · exact absurd (hall pr hpr p hp) (by rw [hm1]; exact not_le.mpr hgtv)
    · refine ⟨w, hw, pw, hpw, by rw [← hm1]; exact hlt, hall, ?_⟩
      intro rng k
      rw [Farm.choose_species, heq]
      dsimp only
      rw [hbest]
      dsimp only
      rw [if_neg (h w hw).1]
  · intro hall hlen rng k
    rcases hcase with ⟨hbest, -⟩ | ⟨w, hw, pw, hpw, hbest, hlt, -⟩
    · subst hbest
      rw [Farm.choose_species, heq]
      dsimp only
      rw [if_neg hlen]
    · obtain ⟨pw', hpw', hpw'0⟩ := hkeys w hw
      have : pw = pw' := Except.ok.inj (hpw.symm.trans hpw')
      subst this
      have := Share.val_le_of_gt_eq_false _ _ hpw'0 (by decide) (hall w hw pw hpw)
      exact absurd hlt (not_lt.mpr this)

/-- **C6-counterexample**: with one species of shortfall 0 (share 0, not
positive), the claimed fallback condition ("exactly when no species has a
positive shortfall share") would require a uniform random choice among
all known species — here, rng `fun _ => 0` would pick `"B"` and advance
the cursor — but `choose_species` deterministically returns `"A"` with
the rng cursor untouched, for any rng. -/
theorem claim_C6_counterexample :
    c6Farm.choose_species [("A", 0)] (fun _ => 0) 0 = .ok ("A", 0) ∧
    c6Farm.choose_species [("A", 0)] (fun _ => 1) 0 = .ok ("A", 0) ∧
    ¬((0 : Int) > 0) ∧
    c6Farm.complete_species_set.getD (0 % c6Farm.complete_species_set.length) "" = "B" ∧
    ("A" : String) ≠ "B" := by
  refine ⟨by decide, by decide, by decide, by decide, by decide⟩

theorem claim_C6_species_selection_policy_witness :
    (∃ w ∈ [(("A" : String), (250 : Int))], ∃ pw,
      lookupE planFarm.production_order w.1 = .ok pw ∧
      (-1 : Rat) < Share.val ⟨w.2, pw⟩ ∧
      (∀ qr ∈ [(("A" : String), (250 : Int))], ∀ q,
        lookupE planFarm.production_order qr.1 = .ok q →
        Share.val ⟨qr.2, q⟩ ≤ Share.val ⟨w.2, pw⟩) ∧
      ∀ (rng : Nat → Nat) (k : Nat),
        planFarm.choose_species [("A", 250)] rng k = .ok (w.1, k)) ∧
    (∀ (rng : Nat → Nat) (k : Nat),
      planFarm.choose_species [] rng k =
        .ok (planFarm.complete_species_set.getD
          (rng k % planFarm.complete_species_set.length) "", k + 1)) :=
  ⟨(claim_C6_species_selection_policy planFarm [("A", 250)]
      (by
        intro pr hpr
        simp only [List.mem_singleton] at hpr
        subst hpr
        exact ⟨by decide, 7000, rfl, by decide⟩)).1
    ⟨("A", 250), by simp, 7000, rfl, by decide⟩,
   (claim_C6_species_selection_policy planFarm [] (by simp)).2 (by simp) (by decide)⟩

theorem chooseSpeciesGo_zero_div (po : List (String × Int)) :
    ∀ (l : List (String × Int)) (mx : Share) (best : Option String),
      (∀ pr ∈ l, ∃ p, lookupE po pr.1 = .ok p) →
      (∃ pr ∈ l, lookupE po pr.1 = .ok 0) →
      chooseSpeciesGo po l mx best = .error "ZeroDivisionError" := by
  intro l
  induction l with
  | nil => intro mx best _ h; simp at h
  | cons hd rest ih =>
    intro mx best hkeys hex
    obtain ⟨p, hp⟩ := hkeys hd (List.mem_cons_self hd rest)
    obtain ⟨s, v⟩ := hd
    rw [chooseSpeciesGo, hp]
    dsimp only
    by_cases hp0 : p = 0
    · rw [if_pos hp0]
    · rw [if_neg hp0]
      have hex' : ∃ pr ∈ rest, lookupE po pr.1 = .ok 0 := by
        rcases hex with ⟨pr, hpr, h0⟩
        rcases List.mem_cons.mp hpr with rfl | hm
        · exact absurd (Except.ok.inj (hp.symm.trans h0)) hp0
        · exact ⟨pr, hm, h0⟩
      have hkeys' : ∀ pr ∈ rest, ∃ p, lookupE po pr.1 = .ok p :=
        fun pr hpr => hkeys pr (List.mem_cons_of_mem _ hpr)
      by_cases hgt : Share.gt ⟨v, p⟩ mx = true
      · rw [if_pos hgt]
        exact ih _ _ hkeys' hex'
      · rw [if_neg hgt]
        exact ih _ _ hkeys' hex'

/-- **C7** (zero-target safety, amended): the division in the share
computation is *not* guarded — whenever some species carrying shortfall
has a production-order target of 0 (and every listed species has a
production-order entry, so no `KeyError` precedes it), `choose_species`
raises `ZeroDivisionError` instead of skipping the species. -/
theorem claim_C7_zero_target_division_fault (f : Farm)
    (sf : List (String × Int)) (rng : Nat → Nat) (k : Nat)
    (hkeys : ∀ pr ∈ sf, ∃ p, lookupE f.production_order pr.1 = .ok p)
    (h0 : ∃ pr ∈ sf, lookupE f.production_order pr.1 = .ok 0) :
    f.choose_species sf rng k = .error "ZeroDivisionError" := by
  rw [Farm.choose_species,
    chooseSpeciesGo_zero_div f.production_order sf ⟨-1, 1⟩ none hkeys h0]

/-- **C7-counterexample**: with `species_shortfall = {"A": 5}` and
`production_order = {"A": 0}`, `choose_species` raises a
division-by-zero fault (it does not treat the species as "never short"
and does not return normally). -/
theorem claim_C7_counterexample :
    c7Farm.choose_species [("A", 5)] (fun _ => 0) 0 = .error "ZeroDivisionError" ∧
    (∀ w k', (.error "ZeroDivisionError" : Except String (String × Nat)) ≠ .ok (w, k')) := by
  refine ⟨by decide, fun w k' h => by cases h⟩

theorem claim_C7_zero_target_division_fault_witness :
    c7Farm.choose_species [("A", 5)] (fun n => n) 2 = .error "ZeroDivisionError" :=
  claim_C7_zero_target_division_fault c7Farm [("A", 5)] (fun n => n) 2
    (by
      intro pr hpr
      simp only [List.mem_singleton] at hpr
      subst hpr
      exact ⟨0, rfl⟩)
    ⟨("A", 5), by simp, rfl⟩

/-- With a non-positive shortfall the admission loop does nothing. -/
theorem Farm.admissionLoop_of_nonpos (f : Farm) (rng : Nat → Nat) (day : Int)
    (st : AdmState) (h : st.shortfall ≤ 0) :
    f.admissionLoop rng day st = .ok st := by
  rw [Farm.admissionLoop, show st.shortfall.toNat = 0 from by omega,
    Farm.admissionLoopF]

/-- The admission loop records changes only in the BS entry. -/
theorem Farm.admissionLoopF_changes_OP (f : Farm) (rng : Nat → Nat) (day : Int) :
    ∀ (fuel : Nat) (st st' : AdmState),
      f.admissionLoopF rng day fuel st = .ok st' →
      st'.changes.OP = st.changes.OP := by
  intro fuel
  induction fuel with
  | zero =>
    intro st st' h
    cases h
    rfl
  | succ m ih =>
    intro st st' h
    rw [Farm.admissionLoopF] at h
    split at h
    · split at h
      · cases h
      · simp only [Farm.create_batch, Batch.init] at h
        split at h
        · cases h
        · have := ih _ _ h
          simpa [Totals4.add] using this
    · cases h
      rfl

/-- Inside the no-outplant window, the advancement loop never records an
OP change: an FS batch is blocked by the window gate, and no other stage
transitions into OP. -/
theorem Farm.advFold_changes_OP (f : Farm) (day prodRem : Int) :
    ∀ (l : List Batch) (acc : AdvAcc),
      (l.foldl (f.advStep day prodRem true) acc).changes.OP = acc.changes.OP := by
  intro l
  induction l with
  | nil => intro acc; rfl
  | cons b rest ih =>
    intro acc
    rw [List.foldl_cons]
    rw [ih (f.advStep day prodRem true acc b)]
    by_cases hg : b.is_ready_to_transition day = true ∧
        f.check_stage_capacity acc.caps (some b) = true ∧
        (match b.stage with
         | .BS => f.check_prod_capacity prodRem b
         | .FS => !true
         | _ => true) = true
    · rw [Farm.advStep_guard_true f day prodRem true acc b hg.1 hg.2.1 hg.2.2]
      have hOP : b.stage ≠ .OP := (f.check_stage_capacity_spec acc.caps b hg.2.1).1
      have hFS : b.stage ≠ .FS := by
        intro hFS
        have := hg.2.2
        rw [hFS] at this
        simp at this
      rw [Batch.change_stage_stage]
      cases hs : b.stage with
      | BS => simp [Stage.next, Totals4.add]
      | MF => simp [Stage.next, Totals4.add]
      | FS => exact absurd hs hFS
      | OP => exact absurd hs hOP
    · rw [Farm.advStep_guard_false f day prodRem true acc b hg]

/-- A `plan_future` day that falls inside the no-outplant window records
zero OP changes. -/
theorem Farm.planDay_window_no_OP (f : Farm) (rng : Nat → Nat)
    (cap : List CapRec) (day : Nat) (st st' : PlanState) (rec : PRec)
    (hw : f.inWindow day = true)
    (h : f.planDay rng cap day st = .ok (st', rec)) :
    rec.changes_overall.OP = 0 := by
  rw [Farm.planDay] at h
  split at h
  · cases h
  · dsimp only at h
    split at h
    · cases h
    · rename_i admSt' hadm
      have hadmOP := f.admissionLoopF_changes_OP rng (day : Int) _ _ _ hadm
      rw [hw] at h
      injection h with h
      injection h with h1 h2
      subst h2
      simpa [Farm.advFold_changes_OP] using hadmOP

/-- Window suppression lifted to the `plan_future` day loop. -/
theorem Farm.planRun_window_no_OP (f : Farm) (rng : Nat → Nat)
    (cap : List CapRec) :
    ∀ (n day : Nat) (st stF : PlanState) (recs : List PRec),
      f.planRun rng cap day n st = .ok (stF, recs) →
      ∀ i, i < n → f.inWindow (day + i) = true →
        (recs.getD i PRec.dummy).changes_overall.OP = 0 := by
  intro n
  induction n with
  | zero => intro day st stF recs h i hi; omega
  | succ m ih =>
    intro day st stF recs h i hi hw
    rw [Farm.planRun] at h
    split at h
    · cases h
    · rename_i st1 rec1 hday
      split at h
      · cases h
      · rename_i stF1 recs1 hrun
        injection h with h
        injection h with h1 h2
        subst h2
        cases i with
        | zero =>
          simpa using f.planDay_window_no_OP rng cap day st st1 rec1
            (by simpa using hw) hday
        | succ j =>
          have := ih (day + 1) st1 stF1 recs1 hrun j (by omega)
            (by rw [show day + 1 + j = day + (j + 1) from by omega]; exact hw)
          simpa using this

/-- An FS batch that is ready transitions on a post-window day with
sufficient OP stage capacity (the single-batch advancement of one
`plan_future` day just after the window). -/
theorem Farm.planDay_post_window (f : Farm) (rng : Nat → Nat)
    (cap : List CapRec) (day : Nat) (st : PlanState) (b : Batch)
    (ws we e : Int) (c : CapRec)
    (hws : f.no_outplant_window_start = some ws)
    (hwe : f.no_outplant_window_end = some we)
    (hday : we < (day : Int))
    (hsf : st.shortfall ≤ 0)
    (hinv : st.inv = [b])
    (hstage : b.stage = .FS)
    (hend : b.end_date = some e) (he : e ≤ (day : Int))
    (hcap : cap.get? day = some c)
    (hq : b.quantity ≤ c.stage.OP) :
    ∃ st' rec, f.planDay rng cap day st = .ok (st', rec) ∧
      rec.changes_overall.OP = b.quantity ∧
      st'.inv.map Batch.stage = [.OP] := by
  have hw : f.inWindow day = false := by
    rw [Farm.inWindow, hws, hwe]
    simp only [decide_eq_false_iff_not]
    omega
  rw [Farm.planDay, hcap]
  dsimp only
  rw [f.admissionLoop_of_nonpos rng (day : Int) _ hsf]
  dsimp only
  rw [hinv]
  rw [List.foldl_cons, List.foldl_nil]
  rw [Farm.advStep_guard_true f (day : Int) _ _ _ b
    (by rw [Batch.is_ready_to_transition, hend]; simpa using he)
    (by rw [Farm.check_stage_capacity, hstage]; simpa using hq)
    (by rw [hstage, hw]; rfl)]
  refine ⟨_, _, rfl, ?_, ?_⟩
  · have hOP : (b.change_stage (day : Int)).stage = .OP := by
      rw [Batch.change_stage_stage, hstage]
      rfl
    dsimp only
    rw [hOP]
    simp [Totals4.add, Batch.change_stage_quantity, Totals4.zero]
  · simp only [List.nil_append, List.map_cons, List.map_nil,
      Batch.change_stage_stage, hstage]
    rfl

/-- **C8** (no-outplant enforcement): in `plan_future`, on every day `d`
with `no_outplant_window_start ≤ d ≤ no_outplant_window_end` (inclusive)
the day's overall OP changes are zero — no FS→OP transition occurs even
if stage capacity and readiness would allow it; and on a day strictly
after the window end, a ready FS batch with sufficient OP stage capacity
does transition (as in scenario 4: ready day 15, window [10, 20],
transition on day 21). -/
theorem claim_C8_no_outplant_enforcement :
    (∀ (f : Farm) (rng : Nat → Nat) (days : Nat) (sf : List (String × Int))
        (cap : List CapRec) (k : Nat) (recs : List PRec) (ws we : Int) (d : Nat),
      f.no_outplant_window_start = some ws →
      f.no_outplant_window_end = some we →
      f.plan_future days sf cap rng k = .ok recs →
      d < days → ws ≤ (d : Int) → (d : Int) ≤ we →
      (recs.getD d PRec.dummy).changes_overall.OP = 0) ∧
    (∀ (f : Farm) (rng : Nat → Nat) (cap : List CapRec) (day : Nat)
        (st : PlanState) (b : Batch) (ws we e : Int) (c : CapRec),
      f.no_outplant_window_start = some ws →
      f.no_outplant_window_end = some we →
      we < (day : Int) → st.shortfall ≤ 0 → st.inv = [b] →
      b.stage = .FS → b.end_date = some e → e ≤ (day : Int) →
      cap.get? day = some c → b.quantity ≤ c.stage.OP →
      ∃ st' rec, f.planDay rng cap day st = .ok (st', rec) ∧
        rec.changes_overall.OP = b.quantity ∧
        st'.inv.map Batch.stage = [.OP]) := by
  constructor
  · intro f rng days sf cap k recs ws we d hws hwe hok hd hw1 hw2
    rw [Farm.plan_future] at hok
    cases hrun : f.planRun rng cap 0 days
        { k := k, inv := [], shortfall := ((sf.map Prod.snd).sum)
          species_shortfall := sf, prevTotals := Totals4.zero } with
    | error e => rw [hrun] at hok; cases hok
    | ok p =>
      rw [hrun] at hok
      injection hok with hok
      subst hok
      exact f.planRun_window_no_OP rng cap days 0 _ p.1 p.2 (by rw [← hrun]) d hd
        (by
          rw [Farm.inWindow, hws, hwe]
          simp only [Nat.zero_add, decide_eq_true_eq]
          omega)
  · intro f rng cap day st b ws we e c hws hwe hday hsf hinv hstage hend he hcap hq
    exact f.planDay_post_window rng cap day st b ws we e c hws hwe hday hsf hinv
      hstage hend he hcap hq

theorem claim_C8_no_outplant_enforcement_witness :
    (((w0Farm.plan_future 1 [("A", 50)] [testCap] (fun n => n) 0).toOption.getD
        []).getD 0 PRec.dummy).changes_overall.OP = 0 ∧
    (∃ st' rec, windowFarm.planDay (fun n => n) capsW 21 c8St = .ok (st', rec) ∧
      rec.changes_overall.OP = fsBatch.quantity ∧
      st'.inv.map Batch.stage = [.OP]) :=
  ⟨claim_C8_no_outplant_enforcement.1 w0Farm (fun n => n) 1 [("A", 50)] [testCap] 0
      ((w0Farm.plan_future 1 [("A", 50)] [testCap] (fun n => n) 0).toOption.getD [])
      0 5 0 rfl rfl (eq_ok_of_toOption (by decide)) (by decide) (by decide) (by decide),
   claim_C8_no_outplant_enforcement.2 windowFarm (fun n => n) capsW 21 c8St fsBatch
      10 20 15 testCap rfl rfl (by decide) (by decide) (by decide) (by decide)
      (by decide) (by decide) (by decide) (by decide)⟩

theorem lookupD_map_self {α : Type} (g : String → α) (d : α) :
    ∀ (ks : List String) (k : String), k ∈ ks →
      lookupD (ks.map fun k' => (k', g k')) k d = g k := by
  intro ks
  induction ks with
  | nil => simp
  | cons a rest ih =>
    intro k hk
    simp only [List.map_cons, lookupD]
    by_cases ha : a = k
    · rw [if_pos ha, ha]
    · rw [if_neg ha]
      refine ih k ?_
      rcases List.mem_cons.mp hk with h | h
      · exact absurd h.symm ha
      · exact h

theorem zipWith_get?_some {α β γ : Type} (g : α → β → γ) :
    ∀ (l1 : List α) (l2 : List β) (d : Nat) (t1 : α) (t2 : β),
      l1.get? d = some t1 → l2.get? d = some t2 →
      (List.zipWith g l1 l2).get? d = some (g t1 t2) := by
  intro l1
  induction l1 with
  | nil => intro l2 d t1 t2 h1; simp at h1
  | cons a rest ih =>
    intro l2 d t1 t2 h1 h2
    cases l2 with
    | nil => simp at h2
    | cons b rest2 =>
      cases d with
      | zero =>
        simp at h1 h2
        subst h1; subst h2
        rfl
      | succ m =>
        simp only [List.get?_cons_succ] at h1 h2
        simpa using ih rest2 m t1 t2 h1 h2

/-- **C9** (merge semantics): `create_unified_result` takes the unified
inventory and capacity series directly from the recovery
(`hypothetical`) run, not summed with the forecast run's, while for each
day present in both runs the unified totals and changes are the key-wise
merge whose overall and per-species values are sums, with `get(…, 0)` /
`get(…, {})` defaults, over the union of the keys/species present in the
two runs. -/
theorem claim_C9_merge_semantics {ι κ : Type}
    (fr hr : ι × List UDay × List UDay × κ) :
    (create_unified_result fr hr).1 = hr.1 ∧
    (create_unified_result fr hr).2.2.2 = hr.2.2.2 ∧
    (create_unified_result fr hr).2.1 = merge_lists fr.2.1 hr.2.1 ∧
    (create_unified_result fr hr).2.2.1 = merge_lists fr.2.2.1 hr.2.2.1 ∧
    (∀ (l1 l2 : List UDay) (d : Nat) (t1 t2 : UDay),
      l1.get? d = some t1 → l2.get? d = some t2 →
      (merge_lists l1 l2).get? d = some (merge_day t1 t2)) ∧
    (∀ (d1 d2 : UDay) (k : String), k ∈ unionKeys d1.overall d2.overall →
      lookupD (merge_day d1 d2).overall k 0
        = lookupD d1.overall k 0 + lookupD d2.overall k 0) ∧
    (∀ (d1 d2 : UDay) (sp k : String),
      sp ∈ unionKeys d1.species d2.species →
      k ∈ unionKeys (lookupD d1.species sp []) (lookupD d2.species sp []) →
      lookupD (lookupD (merge_day d1 d2).species sp []) k 0
        = lookupD (lookupD d1.species sp []) k 0
          + lookupD (lookupD d2.species sp []) k 0) := by
  refine ⟨rfl, rfl, rfl, rfl, fun l1 l2 => zipWith_get?_some merge_day l1 l2,
    ?_, ?_⟩
  · intro d1 d2 k hk
    exact lookupD_map_self _ 0 (unionKeys d1.overall d2.overall) k hk
  · intro d1 d2 sp k hsp hk
    rw [show (merge_day d1 d2).species
        = (unionKeys d1.species d2.species).map (fun sp =>
            (sp, (unionKeys (lookupD d1.species sp []) (lookupD d2.species sp [])).map
              fun key => (key, lookupD (lookupD d1.species sp []) key 0
                + lookupD (lookupD d2.species sp []) key 0))) from rfl]
    rw [lookupD_map_self _ [] (unionKeys d1.species d2.species) sp hsp]
    rw [lookupD_map_self _ 0 _ k hk]

theorem claim_C9_merge_semantics_witness :
    (merge_lists [u1] [u2]).get? 0 = some (merge_day u1 u2) ∧
    lookupD (merge_day u1 u2).overall "BS" 0
      = lookupD u1.overall "BS" 0 + lookupD u2.overall "BS" 0 ∧
    lookupD (lookupD (merge_day u1 u2).species "B" []) "OP" 0
      = lookupD (lookupD u1.species "B" []) "OP" 0
        + lookupD (lookupD u2.species "B" []) "OP" 0 :=
  ⟨(claim_C9_merge_semantics ((0 : Nat), [u1], [u1], (10 : Nat))
      ((1 : Nat), [u2], [u2], (20 : Nat))).2.2.2.2.1 [u1] [u2] 0 u1 u2 rfl rfl,
   (claim_C9_merge_semantics ((0 : Nat), [u1], [u1], (10 : Nat))
      ((1 : Nat), [u2], [u2], (20 : Nat))).2.2.2.2.2.1 u1 u2 "BS" (by decide),
   (claim_C9_merge_semantics ((0 : Nat), [u1], [u1], (10 : Nat))
      ((1 : Nat), [u2], [u2], (20 : Nat))).2.2.2.2.2.2 u1 u2 "B" "OP" (by decide)
      (by decide)⟩

/-! ### Determinism analysis of `plan_future` (claim C10) -/

/-- Erase the (randomly generated) batch id. -/
def Batch.stripId (b : Batch) : Batch := { b with batch_id := "" }

/-- A well-targeted species shortfall: every species carrying shortfall
has a non-empty name and a strictly positive production target.  Under
this condition the random species fallback can never trigger inside
`plan_future` (whenever the loop runs, the aggregate shortfall — which
equals the sum of the per-species shortfalls — is positive, so some
species has a positive share). -/
def GoodSF (po : List (String × Int)) (sf : List (String × Int)) : Prop :=
  ∀ pr ∈ sf, pr.1 ≠ "" ∧ ∃ p, lookupE po pr.1 = .ok p ∧ 0 < p

theorem GoodSF_of_keys_eq (po : List (String × Int))
    (sf sf' : List (String × Int))
    (hk : sf'.map Prod.fst = sf.map Prod.fst)
    (hg : GoodSF po sf) : GoodSF po sf' := by
  intro pr hpr
  have : pr.1 ∈ sf.map Prod.fst := by
    rw [← hk]
    exact List.mem_map_of_mem Prod.fst hpr
  obtain ⟨pr₀, hpr₀, hfst⟩ := List.mem_map.mp this
  obtain ⟨h1, p, h2, h3⟩ := hg pr₀ hpr₀
  rw [hfst] at h1 h2
  exact ⟨h1, p, h2, h3⟩

theorem int_sum_nonpos : ∀ (l : List Int), (∀ x ∈ l, x ≤ 0) → l.sum ≤ 0 := by
  intro l
  induction l with
  | nil => intro _; simp
  | cons a rest ih =>
    intro h
    have ha := h a (List.mem_cons_self a rest)
    have := ih (fun x hx => h x (List.mem_cons_of_mem a hx))
    simp only [List.sum_cons]
    omega

/-- Under `GoodSF`, whenever the aggregate shortfall is positive,
`choose_species` deterministically returns a listed species without
consuming any randomness. -/
theorem Farm.choose_species_no_fallback (f : Farm) (sf : List (String × Int))
    (hg : GoodSF f.production_order sf)
    (hpos : 0 < (sf.map Prod.snd).sum) :
    ∃ w, w ∈ sf.map Prod.fst ∧ ∀ (rng : Nat → Nat) (k : Nat),
      f.choose_species sf rng k = .ok (w, k) := by
  have hkeys : ∀ pr ∈ sf, ∃ p, lookupE f.production_order pr.1 = .ok p ∧ p ≠ 0 := by
    intro pr hpr
    obtain ⟨-, p, hp, hp0⟩ := hg pr hpr
    exact ⟨p, hp, by omega⟩
  obtain ⟨best', heq, hcase⟩ :=
    chooseSpeciesGo_spec f.production_order sf ⟨-1, 1⟩ none (by decide) hkeys
  have hex : ∃ pr ∈ sf, 0 < pr.2 := by
    by_contra hall
    push_neg at hall
    have : (sf.map Prod.snd).sum ≤ 0 :=
      int_sum_nonpos _ (by
        intro x hx
        obtain ⟨pr, hpr, rfl⟩ := List.mem_map.mp hx
        exact hall pr hpr)
    omega
  obtain ⟨pr, hpr, hv⟩ := hex
  obtain ⟨-, p, hp, hppos⟩ := hg pr hpr
  have hshare : Share.val ⟨-1, 1⟩ < Share.val ⟨pr.2, p⟩ := by
    have h1 : Share.val ⟨-1, 1⟩ = (-1 : Rat) := by simp [Share.val]
    have h2 : (0 : Rat) < Share.val ⟨pr.2, p⟩ := by
      rw [Share.val]
      apply div_pos
      · exact_mod_cast hv
      · exact_mod_cast hppos
    rw [h1]
    linarith
  rcases hcase with ⟨-, hall⟩ | ⟨w, hw, pw, hpw, hbest, -, -⟩
  · exact absurd (hall pr hpr p hp) (not_le.mpr hshare)
  · refine ⟨w.1, List.mem_map_of_mem Prod.fst hw, ?_⟩
    intro rng k
    rw [Farm.choose_species, heq]
    dsimp only
    rw [hbest]
    dsimp only
    rw [if_neg (hg w hw).1]

/-- Two admission states that agree everywhere except the (random) batch
ids inside the hypothetical inventory. -/
def AdmR (st₁ st₂ : AdmState) : Prop :=
  st₁.k = st₂.k ∧ st₁.inv.map Batch.stripId = st₂.inv.map Batch.stripId ∧
  st₁.shortfall = st₂.shortfall ∧
  st₁.species_shortfall = st₂.species_shortfall ∧
  st₁.caps = st₂.caps ∧ st₁.bs_cap = st₂.bs_cap ∧
  st₁.changes = st₂.changes ∧ st₁.changesS = st₂.changesS

/-- The admission loop run with two different rng streams from related
states succeeds on both and yields related states: under `GoodSF` the
species choice never consumes randomness, so the only difference the rng
can make is the generated batch ids. -/
theorem Farm.admission_bisim (f : Farm) (day : Int) (rng₁ rng₂ : Nat → Nat) :
    ∀ (fuel : Nat) (st₁ st₂ : AdmState),
      AdmR st₁ st₂ →
      GoodSF f.production_order st₁.species_shortfall →
      (st₁.species_shortfall.map Prod.snd).sum = st₁.shortfall →
      ∃ st₁' st₂', f.admissionLoopF rng₁ day fuel st₁ = .ok st₁' ∧
        f.admissionLoopF rng₂ day fuel st₂ = .ok st₂' ∧
        AdmR st₁' st₂' ∧
        GoodSF f.production_order st₁'.species_shortfall ∧
        (st₁'.species_shortfall.map Prod.snd).sum = st₁'.shortfall := by
  intro fuel
  induction fuel with
  | zero =>
    intro st₁ st₂ hR hg hsum
    exact ⟨st₁, st₂, rfl, rfl, hR, hg, hsum⟩
  | succ m ih =>
    intro st₁ st₂ hR hg hsum
    obtain ⟨hk, hinv, hsf, hsfl, hcaps, hbs, hchg, hchgS⟩ := hR
    by_cases hc : st₁.shortfall > 0 ∧ st₁.caps.BS > 0 ∧ st₁.bs_cap > 0
    · have hc₂ : st₂.shortfall > 0 ∧ st₂.caps.BS > 0 ∧ st₂.bs_cap > 0 :=
        ⟨hsf ▸ hc.1, hcaps ▸ hc.2.1, hbs ▸ hc.2.2⟩
      rw [Farm.admissionLoopF, if_pos hc, Farm.admissionLoopF, if_pos hc₂]
      rw [← hk, ← hsf, ← hsfl, ← hcaps, ← hbs, ← hchg, ← hchgS]
      obtain ⟨w, hwmem, hch⟩ := f.choose_species_no_fallback
        st₁.species_shortfall hg (by rw [hsum]; exact hc.1)
      rw [hch rng₁ st₁.k, hch rng₂ st₁.k]
      dsimp only
      simp only [Farm.create_batch, Batch.init]
      obtain ⟨sf', hsf'⟩ := updateE_isOk w
        (fun v => v - min (min st₁.shortfall (min st₁.caps.BS st₁.bs_cap)) 100)
        st₁.species_shortfall hwmem
      rw [hsf']
      dsimp only
      apply ih
      · refine ⟨rfl, ?_, rfl, rfl, rfl, rfl, rfl, rfl⟩
        simp only [List.map_append, hinv, List.map_cons, List.map_nil,
          Batch.stripId]
      · exact GoodSF_of_keys_eq f.production_order st₁.species_shortfall sf'
          (updateE_keys w _ st₁.species_shortfall sf' hsf') hg
      · have := updateE_sum w
          (min (min st₁.shortfall (min st₁.caps.BS st₁.bs_cap)) 100)
          st₁.species_shortfall sf' hsf'
        dsimp only
        omega
    · have hc₂ : ¬(st₂.shortfall > 0 ∧ st₂.caps.BS > 0 ∧ st₂.bs_cap > 0) := by
        rw [← hsf, ← hcaps, ← hbs]
        exact hc
      rw [Farm.admissionLoopF, if_neg hc, Farm.admissionLoopF, if_neg hc₂]
      exact ⟨st₁, st₂, rfl, rfl,
        ⟨hk, hinv, hsf, hsfl, hcaps, hbs, hchg, hchgS⟩, hg, hsum⟩

theorem Batch.change_stage_start_date (b : Batch) (day : Int) :
    (b.change_stage day).start_date = day := by
  cases h : b.stage <;> simp [Batch.change_stage, h]

theorem Batch.change_stage_bs_cycle (b : Batch) (day : Int) :
    (b.change_stage day).bs_cycle_days = b.bs_cycle_days := by
  cases h : b.stage <;> simp [Batch.change_stage, h]

theorem Batch.change_stage_mf_cycle (b : Batch) (day : Int) :
    (b.change_stage day).mf_cycle_days = b.mf_cycle_days := by
  cases h : b.stage <;> simp [Batch.change_stage, h]

theorem Batch.change_stage_fs_cycle (b : Batch) (day : Int) :
    (b.change_stage day).fs_cycle_days = b.fs_cycle_days := by
  cases h : b.stage <;> simp [Batch.change_stage, h]

theorem Batch.change_stage_end_date (b : Batch) (day : Int) :
    (b.change_stage day).end_date =
      match b.stage with
      | .BS => some (day + b.mf_cycle_days)
      | .MF => some (day + b.fs_cycle_days)
      | .FS => none
      | .OP => b.end_date := by
  cases h : b.stage <;> simp [Batch.change_stage, h]

theorem Batch.stripId_def (b : Batch) :
    b.stripId = ⟨"", b.species, b.quantity, b.stage, b.start_date,
      b.bs_cycle_days, b.mf_cycle_days, b.fs_cycle_days, b.end_date⟩ := rfl

/-- Two advancement accumulators that agree everywhere except batch ids
in the inventory and the (batch-id-keyed) snapshot. -/
def AdvR (a₁ a₂ : AdvAcc) : Prop :=
  a₁.inv.map Batch.stripId = a₂.inv.map Batch.stripId ∧
  a₁.caps = a₂.caps ∧ a₁.changes = a₂.changes ∧ a₁.changesS = a₂.changesS ∧
  a₁.totals = a₂.totals ∧ a₁.totalsS = a₂.totalsS

theorem Farm.advStep_congr (f : Farm) (day prodRem : Int) (w : Bool)
    (a₁ a₂ : AdvAcc) (b₁ b₂ : Batch)
    (hb : b₁.stripId = b₂.stripId) (hR : AdvR a₁ a₂) :
    AdvR (f.advStep day prodRem w a₁ b₁) (f.advStep day prodRem w a₂ b₂) := by
  obtain ⟨hinv, hcaps, hchg, hchgS, htot, htotS⟩ := hR
  obtain ⟨id₁, s₁, q₁, stg₁, sd₁, bc₁, mc₁, fc₁, ed₁⟩ := b₁
  obtain ⟨id₂, s₂, q₂, stg₂, sd₂, bc₂, mc₂, fc₂, ed₂⟩ := b₂
  simp only [Batch.stripId, Batch.mk.injEq, true_and] at hb
  obtain ⟨h1, h2, h3, h4, h5, h6, h7, h8⟩ := hb
  subst h1; subst h2; subst h3; subst h4; subst h5; subst h6; subst h7; subst h8
  have hcs : (Batch.change_stage ⟨id₁, s₁, q₁, stg₁, sd₁, bc₁, mc₁, fc₁, ed₁⟩ day).stripId
      = (Batch.change_stage ⟨id₂, s₁, q₁, stg₁, sd₁, bc₁, mc₁, fc₁, ed₁⟩ day).stripId := by
    rw [Batch.stripId_def, Batch.stripId_def]
    simp only [Batch.change_stage_species, Batch.change_stage_quantity,
      Batch.change_stage_stage, Batch.change_stage_start_date,
      Batch.change_stage_bs_cycle, Batch.change_stage_mf_cycle,
      Batch.change_stage_fs_cycle, Batch.change_stage_end_date]
  by_cases hg : (Batch.is_ready_to_transition ⟨id₁, s₁, q₁, stg₁, sd₁, bc₁, mc₁, fc₁, ed₁⟩ day) = true ∧
      f.check_stage_capacity a₁.caps (some ⟨id₁, s₁, q₁, stg₁, sd₁, bc₁, mc₁, fc₁, ed₁⟩) = true ∧
      (match (⟨id₁, s₁, q₁, stg₁, sd₁, bc₁, mc₁, fc₁, ed₁⟩ : Batch).stage with
       | .BS => f.check_prod_capacity prodRem ⟨id₁, s₁, q₁, stg₁, sd₁, bc₁, mc₁, fc₁, ed₁⟩
       | .FS => !w
       | _ => true) = true
  · have hg₂ : (Batch.is_ready_to_transition ⟨id₂, s₁, q₁, stg₁, sd₁, bc₁, mc₁, fc₁, ed₁⟩ day) = true ∧
        f.check_stage_capacity a₂.caps (some ⟨id₂, s₁, q₁, stg₁, sd₁, bc₁, mc₁, fc₁, ed₁⟩) = true ∧
        (match (⟨id₂, s₁, q₁, stg₁, sd₁, bc₁, mc₁, fc₁, ed₁⟩ : Batch).stage with
         | .BS => f.check_prod_capacity prodRem ⟨id₂, s₁, q₁, stg₁, sd₁, bc₁, mc₁, fc₁, ed₁⟩
         | .FS => !w
         | _ => true) = true := by
      refine ⟨hg.1, ?_, ?_⟩
      · rw [← hcaps]
        exact hg.2.1
      · exact hg.2.2
    rw [Farm.advStep_guard_true f day prodRem w a₁ _ hg.1 hg.2.1 hg.2.2,
      Farm.advStep_guard_true f day prodRem w a₂ _ hg₂.1 hg₂.2.1 hg₂.2.2]
    refine ⟨?_, ?_, ?_, ?_, ?_, ?_⟩
    · simp only [List.map_append, hinv, List.map_cons, List.map_nil, hcs]
    · rw [hcaps, Batch.change_stage_stage, Batch.change_stage_stage,
        Batch.change_stage_quantity, Batch.change_stage_quantity]
    · rw [hchg, Batch.change_stage_stage, Batch.change_stage_stage,
        Batch.change_stage_quantity, Batch.change_stage_quantity]
    · rw [hchgS, Batch.change_stage_species, Batch.change_stage_species,
        Batch.change_stage_stage, Batch.change_stage_stage,
        Batch.change_stage_quantity, Batch.change_stage_quantity]
    · rw [htot, Batch.change_stage_stage, Batch.change_stage_stage,
        Batch.change_stage_quantity, Batch.change_stage_quantity]
    · rw [htotS, Batch.change_stage_species, Batch.change_stage_species,
        Batch.change_stage_stage, Batch.change_stage_stage,
        Batch.change_stage_quantity, Batch.change_stage_quantity]
  · have hg₂ : ¬((Batch.is_ready_to_transition ⟨id₂, s₁, q₁, stg₁, sd₁, bc₁, mc₁, fc₁, ed₁⟩ day) = true ∧
        f.check_stage_capacity a₂.caps (some ⟨id₂, s₁, q₁, stg₁, sd₁, bc₁, mc₁, fc₁, ed₁⟩) = true ∧
        (match (⟨id₂, s₁, q₁, stg₁, sd₁, bc₁, mc₁, fc₁, ed₁⟩ : Batch).stage with
         | .BS => f.check_prod_capacity prodRem ⟨id₂, s₁, q₁, stg₁, sd₁, bc₁, mc₁, fc₁, ed₁⟩
         | .FS => !w
         | _ => true) = true) := by
      rw [← hcaps]
      exact hg
    rw [Farm.advStep_guard_false f day prodRem w a₁ _ hg,
      Farm.advStep_guard_false f day prodRem w a₂ _ hg₂]
    refine ⟨?_, ?_, ?_, ?_, ?_, ?_⟩ <;>
      simp [hinv, hcaps, hchg, hchgS, htot, htotS, Batch.stripId]

theorem Farm.advFold_bisim (f : Farm) (day prodRem : Int) (w : Bool) :
    ∀ (l₁ l₂ : List Batch) (a₁ a₂ : AdvAcc),
      l₁.map Batch.stripId = l₂.map Batch.stripId → AdvR a₁ a₂ →
      AdvR (l₁.foldl (f.advStep day prodRem w) a₁)
        (l₂.foldl (f.advStep day prodRem w) a₂) := by
  intro l₁
  induction l₁ with
  | nil =>
    intro l₂ a₁ a₂ hl hR
    cases l₂ with
    | nil => exact hR
    | cons c cs => simp at hl
  | cons b bs ih =>
    intro l₂ a₁ a₂ hl hR
    cases l₂ with
    | nil => simp at hl
    | cons c cs =>
      simp only [List.map_cons, List.cons.injEq] at hl
      rw [List.foldl_cons, List.foldl_cons]
      exact ih cs _ _ hl.2 (f.advStep_congr day prodRem w a₁ a₂ b c hl.1 hR)

/-- Two plan states that agree everywhere except batch ids. -/
def PlanR (st₁ st₂ : PlanState) : Prop :=
  st₁.k = st₂.k ∧ st₁.inv.map Batch.stripId = st₂.inv.map Batch.stripId ∧
  st₁.shortfall = st₂.shortfall ∧
  st₁.species_shortfall = st₂.species_shortfall ∧
  st₁.prevTotals = st₂.prevTotals

/-- Two plan-day records that agree on every series except the
(batch-id-keyed) inventory snapshot. -/
def PRecR (r₁ r₂ : PRec) : Prop :=
  r₁.totals_overall = r₂.totals_overall ∧ r₁.totals_species = r₂.totals_species ∧
  r₁.changes_overall = r₂.changes_overall ∧
  r₁.changes_species = r₂.changes_species ∧
  r₁.capacity = r₂.capacity

theorem Farm.planDay_bisim (f : Farm) (rng₁ rng₂ : Nat → Nat) (cap : List CapRec)
    (day : Nat) (st₁ st₂ : PlanState) (c : CapRec)
    (hcap : cap.get? day = some c)
    (hR : PlanR st₁ st₂)
    (hg : GoodSF f.production_order st₁.species_shortfall)
    (hsum : (st₁.species_shortfall.map Prod.snd).sum = st₁.shortfall) :
    ∃ st₁' st₂' r₁ r₂,
      f.planDay rng₁ cap day st₁ = .ok (st₁', r₁) ∧
      f.planDay rng₂ cap day st₂ = .ok (st₂', r₂) ∧
      PlanR st₁' st₂' ∧ PRecR r₁ r₂ ∧
      GoodSF f.production_order st₁'.species_shortfall ∧
      (st₁'.species_shortfall.map Prod.snd).sum = st₁'.shortfall := by
  obtain ⟨hk, hinv, hsf, hsfl, hprev⟩ := hR
  obtain ⟨a₁', a₂', h1, h2, hR', hg', hsum'⟩ :=
    f.admission_bisim (day : Int) rng₁ rng₂ st₁.shortfall.toNat
      { k := st₁.k, inv := st₁.inv, shortfall := st₁.shortfall
        species_shortfall := st₁.species_shortfall
        caps := c.stage, bs_cap := planBsRem c day st₁.prevTotals
        changes := Totals4.zero
        changesS := initSpecies f.complete_species_set Totals4.zero }
      { k := st₂.k, inv := st₂.inv, shortfall := st₂.shortfall
        species_shortfall := st₂.species_shortfall
        caps := c.stage, bs_cap := planBsRem c day st₂.prevTotals
        changes := Totals4.zero
        changesS := initSpecies f.complete_species_set Totals4.zero }
      ⟨hk, hinv, hsf, hsfl, rfl, by rw [hprev], rfl, rfl⟩ hg hsum
  obtain ⟨hk', hinv', hsf', hsfl', hcaps', hbs', hchg', hchgS'⟩ := hR'
  rw [Farm.planDay, Farm.planDay, hcap]
  dsimp only
  rw [show f.admissionLoop rng₁ (day : Int)
      { k := st₁.k, inv := st₁.inv, shortfall := st₁.shortfall
        species_shortfall := st₁.species_shortfall
        caps := c.stage, bs_cap := planBsRem c day st₁.prevTotals
        changes := Totals4.zero
        changesS := initSpecies f.complete_species_set Totals4.zero } = .ok a₁' from by
    rw [Farm.admissionLoop]
    exact h1]
  rw [show f.admissionLoop rng₂ (day : Int)
      { k := st₂.k, inv := st₂.inv, shortfall := st₂.shortfall
        species_shortfall := st₂.species_shortfall
        caps := c.stage, bs_cap := planBsRem c day st₂.prevTotals
        changes := Totals4.zero
        changesS := initSpecies f.complete_species_set Totals4.zero } = .ok a₂' from by
    rw [Farm.admissionLoop]
    dsimp only
    rw [show st₂.shortfall.toNat = st₁.shortfall.toNat from by rw [hsf]]
    exact h2]
  dsimp only
  rw [← hprev]
  have hAdv := f.advFold_bisim (day : Int) (planProdRem c day st₁.prevTotals)
    (f.inWindow day) a₁'.inv a₂'.inv
    { inv := [], caps := a₁'.caps, changes := a₁'.changes
      changesS := a₁'.changesS, totals := Totals4.zero
      totalsS := initSpecies f.complete_species_set Totals4.zero, snap := [] }
    { inv := [], caps := a₂'.caps, changes := a₂'.changes
      changesS := a₂'.changesS, totals := Totals4.zero
      totalsS := initSpecies f.complete_species_set Totals4.zero, snap := [] }
    hinv' ⟨by simp, hcaps', hchg', hchgS', rfl, rfl⟩
  obtain ⟨hai, hac, hachg, hachgS, hat, hatS⟩ := hAdv
  exact ⟨_, _, _, _, rfl, rfl,
    ⟨hk', hai, hsf', hsfl', hat⟩,
    ⟨hat, hatS, hachg, hachgS, by rw [hbs', hac]⟩,
    hg', hsum'⟩

theorem Farm.planRun_bisim (f : Farm) (rng₁ rng₂ : Nat → Nat) (cap : List CapRec) :
    ∀ (n day : Nat) (st₁ st₂ : PlanState),
      (∀ i, i < n → (cap.get? (day + i)).isSome) →
      PlanR st₁ st₂ →
      GoodSF f.production_order st₁.species_shortfall →
      (st₁.species_shortfall.map Prod.snd).sum = st₁.shortfall →
      ∃ stF₁ stF₂ recs₁ recs₂,
        f.planRun rng₁ cap day n st₁ = .ok (stF₁, recs₁) ∧
        f.planRun rng₂ cap day n st₂ = .ok (stF₂, recs₂) ∧
        List.Forall₂ PRecR recs₁ recs₂ := by
  intro n
  induction n with
  | zero =>
    intro day st₁ st₂ hcaps hR hg hsum
    exact ⟨st₁, st₂, [], [], rfl, rfl, .nil⟩
  | succ m ih =>
    intro day st₁ st₂ hcaps hR hg hsum
    have hc0 : (cap.get? day).isSome := by
      have := hcaps 0 (by omega)
      simpa using this
    obtain ⟨c, hcap⟩ := Option.isSome_iff_exists.mp hc0
    obtain ⟨st₁', st₂', r₁, r₂, hd1, hd2, hR', hrec, hg', hsum'⟩ :=
      f.planDay_bisim rng₁ rng₂ cap day st₁ st₂ c hcap hR hg hsum
    obtain ⟨stF₁, stF₂, recs₁, recs₂, hr1, hr2, hf⟩ :=
      ih (day + 1) st₁' st₂'
        (fun i hi => by
          have := hcaps (i + 1) (by omega)
          rw [show day + (i + 1) = day + 1 + i from by omega] at this
          exact this)
        hR' hg' hsum'
    rw [Farm.planRun, Farm.planRun, hd1, hd2]
    dsimp only
    rw [hr1, hr2]
    exact ⟨stF₁, stF₂, r₁ :: recs₁, r₂ :: recs₂, rfl, rfl, .cons hrec hf⟩

/-- **C10** (determinism, amended): `plan_future` runs with identical
inputs but different rng streams — provided every species carrying
shortfall has a non-empty name and a positive production target, so the
random species fallback can never trigger, and the forecast capacity
series covers the horizon — both succeed and produce identical totals,
changes, and capacity series (overall and per-species); only the
inventory snapshots, keyed by the randomly generated batch ids, may
differ.  (`forecast` consumes no randomness at all in the embedding, so
its determinism holds by construction.) -/
theorem claim_C10_determinism_amended (f : Farm) (days : Nat)
    (sf : List (String × Int)) (cap : List CapRec) (k : Nat)
    (rng₁ rng₂ : Nat → Nat)
    (hg : GoodSF f.production_order sf)
    (hlen : days ≤ cap.length) :
    ∃ r₁ r₂, f.plan_future days sf cap rng₁ k = .ok r₁ ∧
      f.plan_future days sf cap rng₂ k = .ok r₂ ∧
      r₁.map PRec.totals_overall = r₂.map PRec.totals_overall ∧
      r₁.map PRec.totals_species = r₂.map PRec.totals_species ∧
      r₁.map PRec.changes_overall = r₂.map PRec.changes_overall ∧
      r₁.map PRec.changes_species = r₂.map PRec.changes_species ∧
      r₁.map PRec.capacity = r₂.map PRec.capacity := by
  obtain ⟨stF₁, stF₂, recs₁, recs₂, h1, h2, hf⟩ :=
    f.planRun_bisim rng₁ rng₂ cap days 0
      { k := k, inv := [], shortfall := ((sf.map Prod.snd).sum)
        species_shortfall := sf, prevTotals := Totals4.zero }
      { k := k, inv := [], shortfall := ((sf.map Prod.snd).sum)
        species_shortfall := sf, prevTotals := Totals4.zero }
      (fun i hi => by
        rw [Nat.zero_add, List.get?_eq_get (show i < cap.length from by omega)]
        rfl)
      ⟨rfl, rfl, rfl, rfl, rfl⟩ hg rfl
  refine ⟨recs₁, recs₂, ?_, ?_, ?_, ?_, ?_, ?_, ?_⟩
  · rw [Farm.plan_future, h1]
    rfl
  · rw [Farm.plan_future, h2]
    rfl
  · exact (forall2_map_eq (fun a b hab => hab.1.symm) hf).symm
  · exact (forall2_map_eq (fun a b hab => hab.2.1.symm) hf).symm
  · exact (forall2_map_eq (fun a b hab => hab.2.2.1.symm) hf).symm
  · exact (forall2_map_eq (fun a b hab => hab.2.2.2.1.symm) hf).symm
  · exact (forall2_map_eq (fun a b hab => hab.2.2.2.2.symm) hf).symm

/-- **C10-counterexample**: two `plan_future` calls with identical
inputs, in which the species fallback is never triggered (the single
species has positive shortfall, and `choose_species` returns it without
consuming randomness under both rng streams), still produce different
inventory snapshots: `create_batch` draws a random batch id
(`random.randint`), so the randomness of batch-id generation is a second
source of non-determinism beyond the species fallback. -/
theorem claim_C10_determinism_counterexample :
    ((planFarm.plan_future 1 [("A", 250)] [testCap] (fun _ => 0) 0).map
        (List.map PRec.snap)).toOption = some [[("TEST-1", ⟨.BS, 50⟩)]] ∧
    ((planFarm.plan_future 1 [("A", 250)] [testCap] (fun _ => 7) 0).map
        (List.map PRec.snap)).toOption = some [[("TEST-8", ⟨.BS, 50⟩)]] ∧
    ([[("TEST-1", (⟨.BS, 50⟩ : PInv))]] : List (List (String × PInv)))
      ≠ [[("TEST-8", ⟨.BS, 50⟩)]] ∧
    planFarm.choose_species [("A", 250)] (fun _ => 0) 0 = .ok ("A", 0) ∧
    planFarm.choose_species [("A", 250)] (fun _ => 7) 0 = .ok ("A", 0) := by
  refine ⟨by decide, by decide, by decide, by decide, by decide⟩

theorem claim_C10_determinism_amended_witness :
    ∃ r₁ r₂, planFarm.plan_future 1 [("A", 250)] [testCap] (fun _ => 0) 0 = .ok r₁ ∧
      planFarm.plan_future 1 [("A", 250)] [testCap] (fun _ => 7) 0 = .ok r₂ ∧
      r₁.map PRec.totals_overall = r₂.map PRec.totals_overall ∧
      r₁.map PRec.totals_species = r₂.map PRec.totals_species ∧
      r₁.map PRec.changes_overall = r₂.map PRec.changes_overall ∧
      r₁.map PRec.changes_species = r₂.map PRec.changes_species ∧
      r₁.map PRec.capacity = r₂.map PRec.capacity :=
  claim_C10_determinism_amended planFarm 1 [("A", 250)] [testCap] 0
    (fun _ => 0) (fun _ => 7)
    (by
      intro pr hpr
      simp only [List.mem_singleton] at hpr
      subst hpr
      exact ⟨by decide, 7000, rfl, by decide⟩)
    (by decide)
